import Mathlib

/-!
A shallow embedding of `main.go` of drw-hidden-checker.

The program walks a range of product codes and, for each code, fetches the
product page, the product image and the catalogue search page, prints one
report line and, for two patterns of the three statuses, a diagnostic block.

Modelling conventions.

* A Go `string` is its sequence of bytes: `GoString = List Nat`, every byte a
  number below 256. String literals of the source are given by `utf8`, the
  UTF-8 encoding of the literal (Go source files are UTF-8).
* A Go `int` is a 64-bit two's complement integer: values are `Int`, and the one
  addition of the program that can leave the range (`startDigits + i`) is
  reduced by `wrapInt`.
* The network is an explicit parameter: a function that gives, for the client
  policy, the URL and the number of requests issued before, what `client.Get`
  and `io.ReadAll` return.
* Standard output is the list of the entries written, in order: one entry for
  each `Println` or `Printf`, which writes the entry and a line feed
  (`writtenBytes` gives the bytes). An entry that holds a line feed is more than
  one printed line. Messages of the `log` package (standard error, time-stamped)
  are not modelled.
-/

namespace DrwHiddenChecker

/-! ## Go strings -/

/-- A Go string: a sequence of bytes. -/
abbrev GoString := List Nat

/-- UTF-8 encoding of one Unicode code point. -/
def utf8EncodeChar (c : Char) : GoString :=
  let v := c.toNat
  if v < 0x80 then [v]
  else if v < 0x800 then [0xC0 + v / 64, 0x80 + v % 64]
  else if v < 0x10000 then [0xE0 + v / 4096, 0x80 + v / 64 % 64, 0x80 + v % 64]
  else [0xF0 + v / 262144, 0x80 + v / 4096 % 64, 0x80 + v / 64 % 64, 0x80 + v % 64]

/-- The bytes of a string literal of the source. -/
def utf8 (s : String) : GoString :=
  s.toList.flatMap utf8EncodeChar

/-- `strings.Index` from position `k` on: the index of the first occurrence of
`sub` in `s`, counted from `k`, or `none` where Go returns `-1`. -/
def indexFrom (sub : GoString) : GoString → Nat → Option Nat
  | [], k => if sub = [] then some k else none
  | c :: t, k => if sub.isPrefixOf (c :: t) then some k else indexFrom sub t (k + 1)

/-- `strings.Index(s, sub)`; `none` stands for `-1`. -/
def Index (s sub : GoString) : Option Nat :=
  indexFrom sub s 0

/-- `strings.Contains(s, sub)`, which is `Index(s, sub) >= 0`. -/
def Contains (s sub : GoString) : Bool :=
  (Index s sub).isSome

/-! ## Constants of the source -/

def baseURLPagePrefix : GoString := utf8 "https://d-rw.com/Form/Product/ProductDetail.aspx?pid="

def baseURLImagePrefix : GoString := utf8 "https://d-rw.com/Contents/ProductImages/0/"

def baseURLImageSuffix : GoString := utf8 "_LL.jpg"

def baseURLSearchPrefix : GoString :=
  utf8 "https://d-rw.com/Form/Product/ProductList.aspx?shop=0&cat=&dpcnt=51&img=2&sort=10&swrd="

def baseURLSearchSuffix : GoString := utf8 "&udns=2&fpfl=0&sfl=0&pno=1"

def codeLength : Nat := 5

def errorMessageSnippet : GoString := utf8 "商品が見つかりません"

def searchHitSnippet : GoString := utf8 "<ul class=\"itemList4\">           <li>"

def jsonLdStartSnippet : GoString := utf8 "\"description\": \""

def modelStartSnippet : GoString := utf8 "モデル…"

def brEntity : GoString := utf8 "&lt;br&gt;"

def quote : GoString := utf8 "\""

def httpTimeoutSeconds : Nat := 5

/-! ## Numbers as text -/

/-- The most significant digits of `n` written in front of `acc`; `fuel` bounds
the number of digits. -/
def digitsAux : Nat → Nat → GoString → GoString
  | 0, _, acc => acc
  | fuel + 1, n, acc =>
    if n < 10 then (48 + n) :: acc
    else digitsAux fuel (n / 10) ((48 + n % 10) :: acc)

/-- Decimal rendering of a natural number, no padding, `0` for zero. -/
def formatNat (n : Nat) : GoString :=
  digitsAux (n + 1) n []

/-- `strconv.Itoa`. -/
def Itoa (n : Int) : GoString :=
  if n < 0 then 45 :: formatNat n.natAbs else formatNat n.natAbs

/-- Zeros in front of `ds` until it has `w` bytes. -/
def zeroPad (w : Nat) (ds : GoString) : GoString :=
  List.replicate (w - ds.length) 48 ++ ds

/-- `fmt.Sprintf("%0*d", w, n)`: the width is a minimum; the sign of a negative
number takes one of the `w` places and stands before the zeros. -/
def sprintfZeroPad (w : Nat) (n : Int) : GoString :=
  if n < 0 then 45 :: zeroPad (w - 1) (formatNat n.natAbs)
  else zeroPad w (formatNat n.natAbs)

/-- The loop of `strconv.Atoi` over the digits: `n = n*10 + int(ch - '0')`, a
syntax error (`none`) at a byte that is not a digit. -/
def parseDigitsAux : GoString → Nat → Option Nat
  | [], n => some n
  | ch :: t, n =>
    if 48 ≤ ch ∧ ch ≤ 57 then parseDigitsAux t (n * 10 + (ch - 48)) else none

/-- `strconv.Atoi` for 64-bit `int`: an optional sign, at least one digit,
digits only, and a value from `-2^63` to `2^63 - 1`; `none` where Go returns an
error. -/
def Atoi (s : GoString) : Option Int :=
  match s with
  | [] => none
  | c :: t =>
    let ds := if c = 45 ∨ c = 43 then t else s
    if ds = [] then none
    else
      match parseDigitsAux ds 0 with
      | none => none
      | some n =>
        if c = 45 then (if n ≤ 2 ^ 63 then some (-(n : Int)) else none)
        else if n < 2 ^ 63 then some (n : Int)
        else none

/-- Go `int` addition: the sum reduced to 64-bit two's complement. -/
def wrapInt (x : Int) : Int :=
  (x + 2 ^ 63) % 2 ^ 64 - 2 ^ 63

/-! ## White space (`strings.TrimSpace`) -/

/-- The code points for which `unicode.IsSpace` holds. -/
def spaceRunes : List Nat :=
  [0x09, 0x0A, 0x0B, 0x0C, 0x0D, 0x20, 0x85, 0xA0, 0x1680,
   0x2000, 0x2001, 0x2002, 0x2003, 0x2004, 0x2005, 0x2006, 0x2007, 0x2008, 0x2009, 0x200A,
   0x2028, 0x2029, 0x202F, 0x205F, 0x3000]

/-- The UTF-8 encodings of the white-space code points. -/
def spaceEncodings : List GoString :=
  spaceRunes.map (fun r => utf8EncodeChar (Char.ofNat r))

/-- Width in bytes of the white-space rune `s` starts with, if it starts with
one: the first rune decodes to a white-space code point exactly when its
encoding is a prefix of `s`. -/
def leadingSpace (s : GoString) : Option Nat :=
  (spaceEncodings.find? (fun e => e.isPrefixOf s)).map List.length

/-- Width in bytes of the white-space rune `s` ends with, if it ends with one. -/
def trailingSpace (s : GoString) : Option Nat :=
  (spaceEncodings.find? (fun e => e.isSuffixOf s)).map List.length

/-- `strings.TrimLeftFunc(s, unicode.IsSpace)`. -/
def trimLeftSpace : Nat → GoString → GoString
  | 0, s => s
  | fuel + 1, s =>
    match leadingSpace s with
    | some w => trimLeftSpace fuel (s.drop w)
    | none => s

/-- `strings.TrimRightFunc(s, unicode.IsSpace)`. -/
def trimRightSpace : Nat → GoString → GoString
  | 0, s => s
  | fuel + 1, s =>
    match trailingSpace s with
    | some w => trimRightSpace fuel (s.take (s.length - w))
    | none => s

/-- `strings.TrimSpace`: leading and trailing white space removed. -/
def TrimSpace (s : GoString) : GoString :=
  trimRightSpace s.length (trimLeftSpace s.length s)

/-! ## The network -/

/-- The policy of an `http.Client` of the program. -/
structure Client where
  timeoutSeconds : Nat
  disableKeepAlives : Bool
  followRedirects : Bool
  deriving DecidableEq, Repr

/-- What one GET gives: `client.Get` fails, or it returns a response with a
status code whose body `io.ReadAll` reads (`some`) or fails to read (`none`). -/
inductive HttpResult where
  | netError
  | response (statusCode : Int) (body : Option GoString)
  deriving DecidableEq, Repr

/-- The outside world: the result of a GET, given the client policy, the URL
and the number of requests the run has issued before this one. -/
abbrev Network := Client → GoString → Nat → HttpResult

/-- The client built in `checkURL`: `CheckRedirect` returns
`http.ErrUseLastResponse`, so no redirect is followed. -/
def checkURLClient : Client :=
  { timeoutSeconds := httpTimeoutSeconds, disableKeepAlives := true, followRedirects := false }

/-- The client built in `checkSearch`: no `CheckRedirect`, the default policy of
`http.Client` follows redirects. -/
def checkSearchClient : Client :=
  { timeoutSeconds := httpTimeoutSeconds, disableKeepAlives := true, followRedirects := true }

/-! ## `checkURL` and `checkSearch` -/

/-- The model-name extraction of `checkURL` (lines 148-172): the text between
the first model marker after the first description marker and the next double
quote, cut at the first line-break entity and trimmed; empty when a marker or
the quote is missing. -/
def extractModelName (bodyString : GoString) : GoString :=
  match Index bodyString jsonLdStartSnippet with
  | none => []
  | some jsonLdStart =>
    let descValueStart := jsonLdStart + jsonLdStartSnippet.length
    match Index (bodyString.drop descValueStart) modelStartSnippet with
    | none => []
    | some modelStartRelative =>
      let modelStartAbsolute := descValueStart + modelStartRelative + modelStartSnippet.length
      match Index (bodyString.drop modelStartAbsolute) quote with
      | none => []
      | some descValueEndRelative =>
        let extracted := (bodyString.drop modelStartAbsolute).take descValueEndRelative
        let extracted :=
          match Index extracted brEntity with
          | some brIndex => extracted.take brIndex
          | none => extracted
        TrimSpace extracted

/-- `checkURL(url, isPageCheck)`: the status string and the model name. -/
def checkURL (net : Network) (issued : Nat) (url : GoString) (isPageCheck : Bool) :
    GoString × GoString :=
  match net checkURLClient url issued with
  | .netError => (utf8 "-1", [])
  | .response statusCode body =>
    if statusCode = 200 ∧ isPageCheck = true then
      match body with
      | none => (utf8 "-2", [])
      | some bodyString =>
        if Contains bodyString errorMessageSnippet then (utf8 "404", [])
        else (Itoa statusCode, extractModelName bodyString)
    else (Itoa statusCode, [])

/-- `checkSearch(url, productID)`: the search status string. -/
def checkSearch (net : Network) (issued : Nat) (url productID : GoString) : GoString :=
  match net checkSearchClient url issued with
  | .netError => utf8 "-1"
  | .response statusCode body =>
    if statusCode ≠ 200 then Itoa statusCode
    else
      match body with
      | none => utf8 "-2"
      | some bodyString =>
        if Contains bodyString searchHitSnippet ∧
            Contains bodyString (utf8 "/" ++ productID) then utf8 "200"
        else utf8 "404"

/-! ## The two detection rules of the driver loop (`main`, lines 91-106) -/

/-- Lines written by detection rule 1 when it fires. -/
def discontinuedBlock (pageURL imageURL : GoString) : List GoString :=
  [utf8 "--検知 (廃盤/リダイレクト)", pageURL, imageURL, utf8 "--"]

/-- Lines written by detection rule 2 when it fires. -/
def hiddenBlock (pageURL imageURL searchURL : GoString) : List GoString :=
  [utf8 "--検知 (在庫切れ/非表示)", pageURL, imageURL, utf8 "検索URL: " ++ searchURL, utf8 "--"]

/-- The two `if` statements at the end of the loop body, one after the other:
the lines they write to standard output. -/
def detect (pageStatus imageStatus searchStatus pageURL imageURL searchURL : GoString) :
    List GoString :=
  (if pageStatus ≠ utf8 "200" ∧ imageStatus = utf8 "200" then
      discontinuedBlock pageURL imageURL
    else []) ++
  (if pageStatus = utf8 "200" ∧ imageStatus = utf8 "200" ∧ searchStatus ≠ utf8 "200" then
      hiddenBlock pageURL imageURL searchURL
    else [])

/-- The outcomes the specification names. -/
inductive Classification where
  | Normal
  | DiscontinuedOrRedirected
  | OutOfStockOrHidden
  deriving DecidableEq, Repr

/-- The classifier in the words of the specification (section 4.5), first match
wins: rule 1, else rule 2, else Normal. -/
def classifySpec (pageStatus imageStatus searchStatus : GoString) : Classification :=
  if pageStatus ≠ utf8 "200" ∧ imageStatus = utf8 "200" then
    Classification.DiscontinuedOrRedirected
  else if pageStatus = utf8 "200" ∧ imageStatus = utf8 "200" ∧ searchStatus ≠ utf8 "200" then
    Classification.OutOfStockOrHidden
  else Classification.Normal

/-- The diagnostic lines that belong to a classification. -/
def blockOf (pageURL imageURL searchURL : GoString) : Classification → List GoString
  | Classification.Normal => []
  | Classification.DiscontinuedOrRedirected => discontinuedBlock pageURL imageURL
  | Classification.OutOfStockOrHidden => hiddenBlock pageURL imageURL searchURL

/-! ## The driver (`main`) -/

/-- The state of a run: the entries written to standard output (each is
followed by a line feed), the URLs requested, and the value of `fullCode` in each
iteration so far. -/
structure Run where
  exitCode : Nat
  stdout : List GoString
  requests : List GoString
  codes : List GoString

/-- Argument validation (lines 37-65): the prefix, the start digits and the
range count, or `none` where the program exits with status 1. `osArgs` is
`os.Args`, the program name first. -/
def parseArgs (osArgs : List GoString) : Option (GoString × Int × Int) :=
  match osArgs with
  | [_, startID, rangeCountStr] =>
    match Atoi rangeCountStr with
    | none => none
    | some rangeCount =>
      if rangeCount ≤ 0 then none
      else if startID.length > codeLength then
        let pfx := startID.take (startID.length - codeLength)
        let startDigitsStr := startID.drop (startID.length - codeLength)
        match Atoi startDigitsStr with
        | none => none
        | some startDigits => some (pfx, startDigits, rangeCount)
      else none
  | _ => none

/-- The value of `currentDigits` in iteration `i` (line 74): the Go sum
`startDigits + i`. -/
def currentDigitsAt (startDigits i : Int) : Int :=
  wrapInt (startDigits + i)

/-- The value of `fullCode` in iteration `i` (line 75). -/
def fullCodeAt (pfx : GoString) (startDigits i : Int) : GoString :=
  pfx ++ sprintfZeroPad codeLength (currentDigitsAt startDigits i)

/-- The report line (line 89), without its newline. -/
def reportLine (fullCode pageStatus imageStatus searchStatus modelName : GoString) : GoString :=
  fullCode ++ utf8 ":" ++ pageStatus ++ utf8 ":" ++ imageStatus ++ utf8 ":" ++ searchStatus ++
    utf8 ":" ++ modelName

/-- One pass through the loop body (lines 74-106). -/
def iteration (net : Network) (pfx : GoString) (startDigits i : Int) (st : Run) : Run :=
  let fullCode := fullCodeAt pfx startDigits i
  let pageURL := baseURLPagePrefix ++ fullCode
  let imageURL := baseURLImagePrefix ++ fullCode ++ baseURLImageSuffix
  let searchURL := baseURLSearchPrefix ++ fullCode ++ baseURLSearchSuffix
  let page := checkURL net st.requests.length pageURL true
  let image := checkURL net (st.requests.length + 1) imageURL false
  let searchStatus := checkSearch net (st.requests.length + 2) searchURL fullCode
  { st with
    stdout := st.stdout ++
      reportLine fullCode page.1 image.1 searchStatus page.2 ::
      detect page.1 image.1 searchStatus pageURL imageURL searchURL
    requests := st.requests ++ [pageURL, imageURL, searchURL]
    codes := st.codes ++ [fullCode] }

/-- The loop `for i := 0; i < rangeCount; i++` from counter value `i` on; `fuel`
is the number of passes left at most. The increment cannot leave the `int`
range: it is taken only when `i < rangeCount`. -/
def mainLoop (net : Network) (pfx : GoString) (startDigits rangeCount : Int) :
    Nat → Int → Run → Run
  | 0, _, st => st
  | fuel + 1, i, st =>
    if i < rangeCount then
      mainLoop net pfx startDigits rangeCount fuel (i + 1) (iteration net pfx startDigits i st)
    else st

/-- The program: exit status 1 and nothing else when the arguments are
rejected, else the loop over `rangeCount` codes. -/
def goMain (net : Network) (osArgs : List GoString) : Run :=
  match parseArgs osArgs with
  | none => { exitCode := 1, stdout := [], requests := [], codes := [] }
  | some (pfx, startDigits, rangeCount) =>
    mainLoop net pfx startDigits rangeCount rangeCount.toNat 0
      { exitCode := 0, stdout := [], requests := [], codes := [] }

/-! ## Definitions that follow the words of the claims -/

/-- A text cut at the first occurrence of the line-break entity, if there is
one. -/
def cutAtLineBreak (x : GoString) : GoString :=
  match Index x brEntity with
  | some brIndex => x.take brIndex
  | none => x

/-- The rejection condition in the words of the specification: the argument
count is not 2 (`os.Args`, the program name included, has not 3 entries), or the
range argument does not parse as an integer greater than 0, or the start code is
not longer than `codeLength`, or its last `codeLength` bytes do not parse as a
decimal integer. -/
def ArgsRejected (osArgs : List GoString) : Prop :=
  osArgs.length ≠ 3 ∨
  (¬ ∃ n : Int, Atoi (osArgs.getD 2 []) = some n ∧ 0 < n) ∨
  ¬ codeLength < (osArgs.getD 1 []).length ∨
  Atoi ((osArgs.getD 1 []).drop ((osArgs.getD 1 []).length - codeLength)) = none

/-! ## Sample inputs -/

/-- A search page that lists `ab00100`. -/
def searchBodyHit : GoString :=
  utf8 "<ul class=\"itemList4\">           <li><a href=\"/Form/Product/ab00100\"></a></li></ul>"

/-- A search page with an empty result list. -/
def searchBodyMiss : GoString :=
  utf8 "<ul class=\"itemList4\"></ul> /ab00100"

/-- A page with a well-formed description, model marker and model name, and the
not-found marker behind them. -/
def pageBodySoft404 : GoString :=
  utf8 "<script>\"description\": \"モデル…ModelX\"</script><p>商品が見つかりません</p>"

/-- A page whose description carries the model name `ModelX`. -/
def pageBodyModel : GoString :=
  [] ++ jsonLdStartSnippet ++ ([] ++ modelStartSnippet ++ (utf8 "ModelX" ++ quote ++ []))

/-- A page whose model name is followed by a line-break entity and more text,
and which repeats both markers further on. -/
def pageBodyModelTail : GoString :=
  utf8 "<script>" ++ jsonLdStartSnippet ++
    (utf8 "abc " ++ modelStartSnippet ++
      (utf8 " ModelX &lt;br&gt;TAIL" ++ quote ++ utf8 ", \"description\": \"モデル…Other\""))

/-- A network on which every request fails. -/
def netDown : Network := fun _ _ _ => HttpResult.netError

/-- `strings.Split(s, sep)` for a separator of one byte: the fields between the
occurrences of `sep`, in order. -/
def splitByte (sep : Nat) : GoString → List GoString
  | [] => [[]]
  | c :: t =>
    if c = sep then [] :: splitByte sep t
    else
      match splitByte sep t with
      | [] => [[c]]
      | f :: fs => (c :: f) :: fs

/-! ## More sample inputs -/

/-- A page without the description marker. -/
def pageBodyNoDescription : GoString :=
  utf8 "<html><body>モデル…ModelX\"</body></html>"

/-- A page with the description marker but no model marker after it. -/
def pageBodyNoModel : GoString :=
  utf8 "モデル…Early <script>" ++ jsonLdStartSnippet ++ utf8 "a plain description\"</script>"

/-- A page whose model name contains a colon. -/
def pageBodyColon : GoString :=
  utf8 "\"description\": \"モデル…A:B\""

/-- A network on which the page request gives `pageBodyColon` and the other
requests fail. -/
def netColon : Network := fun _ _ issued =>
  if issued = 0 then HttpResult.response 200 (some pageBodyColon) else HttpResult.netError

/-- An image response body that carries the not-found marker and a model name. -/
def imageBodyMarkers : GoString :=
  utf8 "商品が見つかりません \"description\": \"モデル…ModelX\""

/-- A server that answers every request with a redirect to a page without a
result list: a client that follows redirects receives that page with status 200,
a client that does not receives the 302 response itself. -/
def netRedirect : Network := fun client _ _ =>
  if client.followRedirects then HttpResult.response 200 (some (utf8 "<html></html>"))
  else HttpResult.response 302 (some [])

/-- A catalogue on which the page is a soft 404, the image exists and the
search lists the code. -/
def netSoft404 : Network := fun _ _ issued =>
  if issued = 0 then HttpResult.response 200 (some pageBodySoft404)
  else if issued = 1 then HttpResult.response 200 none
  else HttpResult.response 200 (some searchBodyHit)

/-- A search page that lists only the longer code `ab001001`. -/
def searchBodyLonger : GoString :=
  utf8 "<ul class=\"itemList4\">           <li><a href=\"/Form/Product/ab001001\"></a></li></ul>"

/-- The state of a run before the first pass through the loop. -/
def initialRun : Run :=
  { exitCode := 0, stdout := [], requests := [], codes := [] }

/-- The bytes that reach standard output for a list of entries: every entry is
written with a line feed behind it (`Println`, or `Printf` with a format that
ends in a line feed). -/
def writtenBytes (entries : List GoString) : GoString :=
  entries.flatMap (fun e => e ++ [10])

/-- A page whose model name contains a line feed and no colon (`A`, line feed,
`B`). -/
def pageBodyLineFeed : GoString :=
  utf8 "\"description\": \"モデル…A" ++ [10] ++ utf8 "B\""

/-- A network on which the page request gives `pageBodyLineFeed` and the other
requests fail. -/
def netLineFeed : Network := fun _ _ issued =>
  if issued = 0 then HttpResult.response 200 (some pageBodyLineFeed) else HttpResult.netError

/-- A network on which the page request gives `pageBodyModel` and the other
requests fail. -/
def netModel : Network := fun _ _ issued =>
  if issued = 0 then HttpResult.response 200 (some pageBodyModel) else HttpResult.netError

/-! ## Substring search -/

theorem indexFrom_eq_none_iff (sub : GoString) :
    ∀ (s : GoString) (k : Nat), indexFrom sub s k = none ↔ ¬ sub <:+: s := by
  intro s
  induction s with
  | nil =>
    intro k
    by_cases h : sub = [] <;> simp [indexFrom, h]
  | cons c t ih =>
    intro k
    by_cases h : sub <+: c :: t
    · have hp : sub.isPrefixOf (c :: t) = true := List.isPrefixOf_iff_prefix.mpr h
      simp [indexFrom, hp, h.isInfix]
    · have hp : ¬ sub.isPrefixOf (c :: t) = true := fun hp => h (List.isPrefixOf_iff_prefix.mp hp)
      simp [indexFrom, hp, ih, List.infix_cons_iff, h]

/-- `strings.Contains` holds exactly when the second string occurs in the first. -/
theorem contains_iff_occurs (s sub : GoString) : Contains s sub = true ↔ sub <:+: s := by
  unfold Contains Index
  cases h : indexFrom sub s 0 with
  | none => simpa using (indexFrom_eq_none_iff sub s 0).mp h
  | some j =>
    have : ¬ indexFrom sub s 0 = none := by simp [h]
    simpa using Classical.not_not.mp (fun hn => this ((indexFrom_eq_none_iff sub s 0).mpr hn))

theorem contains_eq_false_iff (s sub : GoString) : Contains s sub = false ↔ ¬ sub <:+: s := by
  rw [← contains_iff_occurs]; simp

theorem indexFrom_cons (sub : GoString) (c : Nat) (t : GoString) (k : Nat) :
    indexFrom sub (c :: t) k
      = if sub.isPrefixOf (c :: t) then some k else indexFrom sub t (k + 1) := rfl

theorem indexFrom_append_of_first (sub b : GoString) :
    ∀ (a : GoString) (k : Nat),
      (∀ m, m < a.length → ¬ sub <+: (a ++ sub ++ b).drop m) →
      indexFrom sub (a ++ sub ++ b) k = some (k + a.length) := by
  intro a
  induction a with
  | nil =>
    intro k _
    have hp : sub.isPrefixOf (sub ++ b) = true :=
      List.isPrefixOf_iff_prefix.mpr (List.prefix_append sub b)
    cases hs : sub ++ b with
    | nil =>
      have hsub : sub = [] := (List.append_eq_nil.mp hs).1
      have hb : b = [] := (List.append_eq_nil.mp hs).2
      simp [indexFrom, hsub, hb]
    | cons c t =>
      rw [hs] at hp
      simp [indexFrom, hs, hp]
  | cons x a ih =>
    intro k hfirst
    have h0 : ¬ sub <+: x :: (a ++ sub ++ b) := by
      have := hfirst 0 (by simp)
      simpa using this
    have hp : ¬ sub.isPrefixOf (x :: (a ++ sub ++ b)) = true :=
      fun hp => h0 (List.isPrefixOf_iff_prefix.mp hp)
    have hrest : ∀ m, m < a.length → ¬ sub <+: (a ++ sub ++ b).drop m := by
      intro m hm
      have := hfirst (m + 1) (by simp; omega)
      simpa using this
    have hstep := ih (k + 1) hrest
    have hcons : x :: a ++ sub ++ b = x :: (a ++ sub ++ b) := rfl
    rw [hcons, indexFrom_cons, if_neg hp, hstep, List.length_cons]
    congr 1
    omega

/-- The first occurrence of `sub`, when nothing before position `a.length` starts
an occurrence. -/
theorem index_append_of_first (a sub b : GoString)
    (hfirst : ∀ m, m < a.length → ¬ sub <+: (a ++ sub ++ b).drop m) :
    Index (a ++ sub ++ b) sub = some a.length := by
  have := indexFrom_append_of_first sub b a 0 hfirst
  simpa [Index] using this

theorem index_eq_none_iff (s sub : GoString) : Index s sub = none ↔ ¬ sub <:+: s :=
  indexFrom_eq_none_iff sub s 0

/-- The first occurrence of a single byte that does not occur in `x`. -/
theorem index_byte_append (x rest : GoString) (c : Nat) (hc : c ∉ x) :
    Index (x ++ [c] ++ rest) [c] = some x.length := by
  apply index_append_of_first
  intro m hm hpre
  have hdrop : (x ++ [c] ++ rest).drop m = x.drop m ++ ([c] ++ rest) := by
    rw [List.append_assoc, List.drop_append_of_le_length (Nat.le_of_lt hm)]
  rw [hdrop] at hpre
  have hne : x.drop m ≠ [] := by
    intro h
    have := congrArg List.length h
    simp at this
    omega
  obtain ⟨y, ys, hy⟩ := List.exists_cons_of_ne_nil hne
  rw [hy] at hpre
  obtain ⟨t, ht⟩ := hpre
  simp at ht
  have hmem : y ∈ x.drop m := by rw [hy]; simp
  exact hc (ht.1 ▸ List.mem_of_mem_drop hmem)

/-! ## Decimal rendering and parsing -/

theorem digitsAux_acc : ∀ (fuel n : Nat) (acc : GoString),
    digitsAux fuel n acc = digitsAux fuel n [] ++ acc := by
  intro fuel
  induction fuel with
  | zero => intro n acc; simp [digitsAux]
  | succ f ih =>
    intro n acc
    by_cases h : n < 10
    · simp [digitsAux, h]
    · simp only [digitsAux, h, if_false]
      rw [ih (n / 10) ((48 + n % 10) :: acc), ih (n / 10) [48 + n % 10]]
      simp

theorem digitsAux_fuel : ∀ (fuel fuel2 n : Nat) (acc : GoString), n < fuel → n < fuel2 →
    digitsAux fuel n acc = digitsAux fuel2 n acc := by
  intro fuel
  induction fuel with
  | zero => intro fuel2 n acc h; omega
  | succ f ih =>
    intro fuel2 n acc h1 h2
    cases fuel2 with
    | zero => omega
    | succ g =>
      by_cases h : n < 10
      · simp [digitsAux, h]
      · simp only [digitsAux, h, if_false]
        have hd : n / 10 < n := Nat.div_lt_self (by omega) (by omega)
        exact ih g (n / 10) _ (by omega) (by omega)

/-- The recursion equation of the decimal rendering. -/
theorem formatNat_eq (n : Nat) :
    formatNat n = if n < 10 then [48 + n] else formatNat (n / 10) ++ [48 + n % 10] := by
  by_cases h : n < 10
  · simp [formatNat, digitsAux, h]
  · have hd : n / 10 < n := Nat.div_lt_self (by omega) (by omega)
    have hstep : formatNat n = digitsAux n (n / 10) [48 + n % 10] := by
      simp [formatNat, digitsAux, h]
    rw [hstep, if_neg h, digitsAux_acc, digitsAux_fuel n (n / 10 + 1) (n / 10) [] hd (by omega)]
    rfl

theorem formatNat_length_pos (n : Nat) : 1 ≤ (formatNat n).length := by
  rw [formatNat_eq]
  by_cases h : n < 10 <;> simp [h]

theorem formatNat_length_le : ∀ (k n : Nat), n < 10 ^ (k + 1) → (formatNat n).length ≤ k + 1 := by
  intro k
  induction k with
  | zero =>
    intro n h
    rw [formatNat_eq]
    have : n < 10 := by simpa using h
    simp [this]
  | succ k ih =>
    intro n h
    rw [formatNat_eq]
    by_cases h10 : n < 10
    · simp [h10]
    · have : n / 10 < 10 ^ (k + 1) := by
        apply Nat.div_lt_of_lt_mul
        rw [pow_succ] at h
        omega
      have := ih (n / 10) this
      simp [h10]
      omega

theorem formatNat_length_gt : ∀ (k n : Nat), 10 ^ k ≤ n → k + 1 ≤ (formatNat n).length := by
  intro k
  induction k with
  | zero => intro n _; simpa using formatNat_length_pos n
  | succ k ih =>
    intro n h
    rw [formatNat_eq]
    have h10 : ¬ n < 10 := by
      have : 10 ^ 1 ≤ 10 ^ (k + 1) := Nat.pow_le_pow_right (by omega) (by omega)
      omega
    have : 10 ^ k ≤ n / 10 := by
      rw [Nat.le_div_iff_mul_le (by omega)]
      rw [pow_succ] at h
      omega
    have := ih (n / 10) this
    simp [h10]
    omega

theorem parseDigitsAux_append : ∀ (a b : GoString) (n : Nat),
    parseDigitsAux (a ++ b) n = (parseDigitsAux a n).bind (parseDigitsAux b) := by
  intro a
  induction a with
  | nil => intro b n; simp [parseDigitsAux]
  | cons c t ih =>
    intro b n
    by_cases h : 48 ≤ c ∧ c ≤ 57
    · simp [parseDigitsAux, h, ih]
    · simp [parseDigitsAux, h]

/-- Parsing the decimal rendering of `n` gives `n` back. -/
theorem parseDigitsAux_formatNat (n : Nat) : parseDigitsAux (formatNat n) 0 = some n := by
  induction n using Nat.strong_induction_on with
  | _ n ih =>
    rw [formatNat_eq]
    by_cases h : n < 10
    · have : 48 + n ≤ 57 := by omega
      simp [h, parseDigitsAux, this]
    · have hd : n / 10 < n := Nat.div_lt_self (by omega) (by omega)
      have hm : 48 + n % 10 ≤ 57 := by omega
      simp only [h, if_false, parseDigitsAux_append, ih (n / 10) hd, Option.some_bind]
      simp [parseDigitsAux, hm]
      omega

theorem formatNat_injective (a b : Nat) (h : formatNat a = formatNat b) : a = b := by
  have ha := parseDigitsAux_formatNat a
  rw [h, parseDigitsAux_formatNat] at ha
  exact (Option.some.inj ha).symm

theorem formatNat_head_ne_minus (n : Nat) (t : GoString) : formatNat n ≠ 45 :: t := by
  intro h
  have hp := parseDigitsAux_formatNat n
  rw [h] at hp
  simp [parseDigitsAux] at hp

/-- `strconv.Itoa` is injective. -/
theorem Itoa_injective (a b : Int) (h : Itoa a = Itoa b) : a = b := by
  unfold Itoa at h
  by_cases ha : a < 0 <;> by_cases hb : b < 0
  · simp only [ha, hb, if_true, List.cons.injEq, true_and] at h
    have := formatNat_injective _ _ h
    omega
  · simp only [ha, hb, if_true, if_false] at h
    exact absurd h.symm (formatNat_head_ne_minus _ _)
  · simp only [ha, hb, if_true, if_false] at h
    exact absurd h (formatNat_head_ne_minus _ _)
  · simp only [ha, hb, if_false] at h
    have := formatNat_injective _ _ h
    omega

theorem Itoa_eq_200_iff (s : Int) : Itoa s = utf8 "200" ↔ s = 200 := by
  have h200 : Itoa 200 = utf8 "200" := by decide
  constructor
  · intro h
    exact Itoa_injective s 200 (h.trans h200.symm)
  · intro h
    rw [h, h200]

/-! ## The anomaly classifier -/

theorem discontinuedBlock_ne_nil (pageURL imageURL : GoString) :
    discontinuedBlock pageURL imageURL ≠ [] := by
  simp [discontinuedBlock]

theorem hiddenBlock_ne_nil (pageURL imageURL searchURL : GoString) :
    hiddenBlock pageURL imageURL searchURL ≠ [] := by
  simp [hiddenBlock]

theorem hiddenBlock_ne_discontinuedBlock (pageURL imageURL searchURL : GoString) :
    hiddenBlock pageURL imageURL searchURL ≠ discontinuedBlock pageURL imageURL := by
  intro h
  have hlen := congrArg List.length h
  simp [hiddenBlock, discontinuedBlock] at hlen

/-- C1: for every triple of status strings the two `if` statements write the
discontinued/redirected block exactly when the page status is not `200` and the
image status is `200`, the out-of-stock/hidden block exactly when page and image
status are `200` and the search status is not, and nothing in every other case;
the five rows of the classification table follow. -/
theorem detect_blocks (pageStatus imageStatus searchStatus pageURL imageURL searchURL : GoString) :
    (detect pageStatus imageStatus searchStatus pageURL imageURL searchURL
        = discontinuedBlock pageURL imageURL
      ↔ pageStatus ≠ utf8 "200" ∧ imageStatus = utf8 "200") ∧
    (detect pageStatus imageStatus searchStatus pageURL imageURL searchURL
        = hiddenBlock pageURL imageURL searchURL
      ↔ pageStatus = utf8 "200" ∧ imageStatus = utf8 "200" ∧ searchStatus ≠ utf8 "200") ∧
    (detect pageStatus imageStatus searchStatus pageURL imageURL searchURL = []
      ↔ ¬ (pageStatus ≠ utf8 "200" ∧ imageStatus = utf8 "200") ∧
        ¬ (pageStatus = utf8 "200" ∧ imageStatus = utf8 "200" ∧ searchStatus ≠ utf8 "200")) ∧
    detect (utf8 "404") (utf8 "200") (utf8 "404") pageURL imageURL searchURL
      = discontinuedBlock pageURL imageURL ∧
    detect (utf8 "-1") (utf8 "200") (utf8 "404") pageURL imageURL searchURL
      = discontinuedBlock pageURL imageURL ∧
    detect (utf8 "200") (utf8 "200") (utf8 "404") pageURL imageURL searchURL
      = hiddenBlock pageURL imageURL searchURL ∧
    detect (utf8 "200") (utf8 "200") (utf8 "200") pageURL imageURL searchURL = [] ∧
    detect (utf8 "404") (utf8 "404") (utf8 "404") pageURL imageURL searchURL = [] := by
  have hd := discontinuedBlock_ne_nil pageURL imageURL
  have hh := hiddenBlock_ne_nil pageURL imageURL searchURL
  have hhd := hiddenBlock_ne_discontinuedBlock pageURL imageURL searchURL
  refine ⟨?_, ?_, ?_, ?_, ?_, ?_, ?_, ?_⟩
  · by_cases h1 : pageStatus = utf8 "200" <;> by_cases h2 : imageStatus = utf8 "200" <;>
      by_cases h3 : searchStatus = utf8 "200" <;>
      simp [detect, h1, h2, h3, hhd, Ne.symm hd]
  · by_cases h1 : pageStatus = utf8 "200" <;> by_cases h2 : imageStatus = utf8 "200" <;>
      by_cases h3 : searchStatus = utf8 "200" <;>
      simp [detect, h1, h2, h3, Ne.symm hhd, Ne.symm hh]
  · by_cases h1 : pageStatus = utf8 "200" <;> by_cases h2 : imageStatus = utf8 "200" <;>
      by_cases h3 : searchStatus = utf8 "200" <;>
      simp [detect, h1, h2, h3, hd, hh]
  · have : utf8 "404" ≠ utf8 "200" := by decide
    simp [detect, this]
  · have : utf8 "-1" ≠ utf8 "200" := by decide
    simp [detect, this]
  · have : utf8 "404" ≠ utf8 "200" := by decide
    simp [detect, this]
  · simp [detect]
  · have : utf8 "404" ≠ utf8 "200" := by decide
    simp [detect, this]

/-- C10: the two rules never fire together, so the two independent `if`
statements write exactly the block of the classification the specification
obtains by first-match priority (rule 1, else rule 2, else Normal). -/
theorem detect_refines_classifySpec
    (pageStatus imageStatus searchStatus pageURL imageURL searchURL : GoString) :
    ¬ ((pageStatus ≠ utf8 "200" ∧ imageStatus = utf8 "200") ∧
        (pageStatus = utf8 "200" ∧ imageStatus = utf8 "200" ∧ searchStatus ≠ utf8 "200")) ∧
    detect pageStatus imageStatus searchStatus pageURL imageURL searchURL
      = blockOf pageURL imageURL searchURL (classifySpec pageStatus imageStatus searchStatus) ∧
    detect pageStatus imageStatus searchStatus pageURL imageURL searchURL
      ≠ discontinuedBlock pageURL imageURL ++ hiddenBlock pageURL imageURL searchURL := by
  refine ⟨fun h => h.1.1 h.2.1, ?_, ?_⟩
  · by_cases h1 : pageStatus = utf8 "200" <;> by_cases h2 : imageStatus = utf8 "200" <;>
      by_cases h3 : searchStatus = utf8 "200" <;>
      simp [detect, classifySpec, blockOf, h1, h2, h3]
  · intro h
    have hlen := congrArg List.length h
    by_cases h1 : pageStatus = utf8 "200" <;> by_cases h2 : imageStatus = utf8 "200" <;>
      by_cases h3 : searchStatus = utf8 "200" <;>
      simp [detect, discontinuedBlock, hiddenBlock, h1, h2, h3] at hlen

/-! ## The search verifier -/

/-- C2: `checkSearch` returns `200` exactly when the response has status 200,
its body was read and the body contains both the list-start marker and `/`
followed by the code; with status 200 and a body that was read but fails one of
the two conditions it returns `404`; with a status `s` other than 200 it returns
the decimal string of `s`, whatever the body. -/
theorem checkSearch_result (net : Network) (issued : Nat) (url productID : GoString) :
    (checkSearch net issued url productID = utf8 "200" ↔
      ∃ bodyString,
        net checkSearchClient url issued = HttpResult.response 200 (some bodyString) ∧
        searchHitSnippet <:+: bodyString ∧ (utf8 "/" ++ productID) <:+: bodyString) ∧
    (∀ bodyString,
      net checkSearchClient url issued = HttpResult.response 200 (some bodyString) →
      ¬ (searchHitSnippet <:+: bodyString ∧ (utf8 "/" ++ productID) <:+: bodyString) →
      checkSearch net issued url productID = utf8 "404") ∧
    (∀ s body,
      net checkSearchClient url issued = HttpResult.response s body → s ≠ 200 →
      checkSearch net issued url productID = Itoa s) := by
  refine ⟨?_, ?_, ?_⟩
  · unfold checkSearch
    cases hnet : net checkSearchClient url issued with
    | netError =>
      have : utf8 "-1" ≠ utf8 "200" := by decide
      simp [this]
    | response s body =>
      by_cases hs : s = 200
      · subst hs
        cases body with
        | none =>
          have : utf8 "-2" ≠ utf8 "200" := by decide
          simp [this]
        | some b =>
          have h404 : utf8 "404" ≠ utf8 "200" := by decide
          by_cases hc : Contains b searchHitSnippet = true ∧
              Contains b (utf8 "/" ++ productID) = true
          · have hi := hc
            rw [contains_iff_occurs, contains_iff_occurs] at hi
            simp [hc, hi]
          · have hi := hc
            rw [contains_iff_occurs, contains_iff_occurs] at hi
            simp only [ne_eq, not_true_eq_false, if_false, hc, h404, false_iff]
            rintro ⟨b2, hb2, hinf⟩
            have hbb : b = b2 := by simpa using hb2
            exact hi (hbb ▸ hinf)
      · have hne : Itoa s ≠ utf8 "200" := fun h => hs ((Itoa_eq_200_iff s).mp h)
        simp [hs, hne]
  · intro b hnet hnot
    have hc : ¬ (Contains b searchHitSnippet = true ∧
        Contains b (utf8 "/" ++ productID) = true) := by
      rw [contains_iff_occurs, contains_iff_occurs]
      exact hnot
    simp [checkSearch, hnet, hc]
  · intro s body hnet hs
    simp [checkSearch, hnet, hs]

/-- C2 at three concrete responses: a listing page gives `200`, a page without
the list-start marker gives `404`, a 503 response gives `503`. -/
theorem checkSearch_result_witness :
    checkSearch (fun _ _ _ => HttpResult.response 200 (some searchBodyHit)) 0 [] (utf8 "ab00100")
      = utf8 "200" ∧
    checkSearch (fun _ _ _ => HttpResult.response 200 (some searchBodyMiss)) 0 [] (utf8 "ab00100")
      = utf8 "404" ∧
    checkSearch (fun _ _ _ => HttpResult.response 503 (some searchBodyHit)) 0 [] (utf8 "ab00100")
      = utf8 "503" :=
  ⟨(checkSearch_result (fun _ _ _ => HttpResult.response 200 (some searchBodyHit)) 0 []
      (utf8 "ab00100")).1.mpr
      ⟨searchBodyHit, rfl, (contains_iff_occurs _ _).mp (by decide),
        (contains_iff_occurs _ _).mp (by decide)⟩,
   (checkSearch_result (fun _ _ _ => HttpResult.response 200 (some searchBodyMiss)) 0 []
      (utf8 "ab00100")).2.1 searchBodyMiss rfl
      (fun h => (contains_eq_false_iff _ _).mp (by decide) h.1),
   (checkSearch_result (fun _ _ _ => HttpResult.response 503 (some searchBodyHit)) 0 []
      (utf8 "ab00100")).2.2 503 (some searchBodyHit) rfl (by decide)⟩

/-! ## The content extractor -/

/-- C3: a page probe whose response has status 200 and whose body contains the
not-found marker anywhere returns status `404` and an empty model name, whatever
else the body contains. -/
theorem checkURL_not_found (net : Network) (issued : Nat) (url bodyString : GoString)
    (hnet : net checkURLClient url issued = HttpResult.response 200 (some bodyString))
    (hmark : errorMessageSnippet <:+: bodyString) :
    checkURL net issued url true = (utf8 "404", []) := by
  have hc : Contains bodyString errorMessageSnippet = true :=
    (contains_iff_occurs _ _).mpr hmark
  simp [checkURL, hnet, hc]

/-- C3 at a soft-404 page that also carries a model name. -/
theorem checkURL_not_found_witness :
    errorMessageSnippet <:+: pageBodySoft404 ∧
    checkURL (fun _ _ _ => HttpResult.response 200 (some pageBodySoft404)) 0 [] true
      = (utf8 "404", []) :=
  ⟨(contains_iff_occurs _ _).mp (by decide),
   checkURL_not_found (fun _ _ _ => HttpResult.response 200 (some pageBodySoft404)) 0 []
     pageBodySoft404 rfl ((contains_iff_occurs _ _).mp (by decide))⟩

theorem extractModelName_of_first (A B X rest : GoString)
    (hA : ∀ m, m < A.length → ¬ jsonLdStartSnippet <+:
      (A ++ jsonLdStartSnippet ++ (B ++ modelStartSnippet ++ (X ++ quote ++ rest))).drop m)
    (hB : ∀ m, m < B.length → ¬ modelStartSnippet <+:
      (B ++ modelStartSnippet ++ (X ++ quote ++ rest)).drop m)
    (hX : 34 ∉ X) :
    extractModelName (A ++ jsonLdStartSnippet ++ (B ++ modelStartSnippet ++ (X ++ quote ++ rest)))
      = TrimSpace (cutAtLineBreak X) := by
  have h1 := index_append_of_first A jsonLdStartSnippet _ hA
  have h2 := index_append_of_first B modelStartSnippet _ hB
  have hq : quote = [34] := by decide
  have h3 : Index (X ++ quote ++ rest) quote = some X.length := by
    rw [hq]; exact index_byte_append X rest 34 hX
  have hd1 : (A ++ jsonLdStartSnippet ++ (B ++ modelStartSnippet ++ (X ++ quote ++ rest))).drop
      (A.length + jsonLdStartSnippet.length)
      = B ++ modelStartSnippet ++ (X ++ quote ++ rest) := by
    rw [← List.length_append]
    exact List.drop_left _ _
  have hd2 : (A ++ jsonLdStartSnippet ++ (B ++ modelStartSnippet ++ (X ++ quote ++ rest))).drop
      (A.length + jsonLdStartSnippet.length + B.length + modelStartSnippet.length)
      = X ++ quote ++ rest := by
    have e : A ++ jsonLdStartSnippet ++ (B ++ modelStartSnippet ++ (X ++ quote ++ rest))
        = (A ++ jsonLdStartSnippet ++ B ++ modelStartSnippet) ++ (X ++ quote ++ rest) := by
      simp [List.append_assoc]
    have l : A.length + jsonLdStartSnippet.length + B.length + modelStartSnippet.length
        = (A ++ jsonLdStartSnippet ++ B ++ modelStartSnippet).length := by
      simp only [List.length_append]
    rw [e, l]
    exact List.drop_left _ _
  have ht : (X ++ quote ++ rest).take X.length = X := by
    rw [List.append_assoc]
    exact List.take_left _ _
  unfold extractModelName
  simp only [h1, hd1, h2, hd2, h3, ht]
  rfl

/-- C4: on a 200-status page without the not-found marker in which the first
description marker is followed, at its first occurrence after it, by the model
marker, then a text `X` without a double quote, then a double quote, `checkURL`
returns status `200` and `X` cut at the first line-break entity and trimmed of
white space. `A` is the text before the first description marker and `B` the text
between that marker and the first model marker after it; what follows the
closing quote is free. -/
theorem checkURL_model_name (net : Network) (issued : Nat) (url A B X rest : GoString)
    (hnet : net checkURLClient url issued = HttpResult.response 200
      (some (A ++ jsonLdStartSnippet ++ (B ++ modelStartSnippet ++ (X ++ quote ++ rest)))))
    (hnf : ¬ errorMessageSnippet <:+:
      (A ++ jsonLdStartSnippet ++ (B ++ modelStartSnippet ++ (X ++ quote ++ rest))))
    (hA : ∀ m, m < A.length → ¬ jsonLdStartSnippet <+:
      (A ++ jsonLdStartSnippet ++ (B ++ modelStartSnippet ++ (X ++ quote ++ rest))).drop m)
    (hB : ∀ m, m < B.length → ¬ modelStartSnippet <+:
      (B ++ modelStartSnippet ++ (X ++ quote ++ rest)).drop m)
    (hX : 34 ∉ X) :
    checkURL net issued url true = (utf8 "200", TrimSpace (cutAtLineBreak X)) := by
  have hc : Contains (A ++ jsonLdStartSnippet ++ (B ++ modelStartSnippet ++ (X ++ quote ++ rest)))
      errorMessageSnippet = false := (contains_eq_false_iff _ _).mpr hnf
  have h200 : Itoa 200 = utf8 "200" := by decide
  have hm := extractModelName_of_first A B X rest hA hB hX
  unfold checkURL
  rw [hnet]
  simp only [and_self, if_true, hc, h200, hm]
  rfl

/-- C4 at the two pages of the specification: `ModelX` gives `ModelX`, and
`ModelX`, a line-break entity and `TAIL` give `ModelX`. -/
theorem checkURL_model_name_witness :
    checkURL (fun _ _ _ => HttpResult.response 200 (some pageBodyModel)) 0 [] true
      = (utf8 "200", utf8 "ModelX") ∧
    checkURL (fun _ _ _ => HttpResult.response 200 (some pageBodyModelTail)) 0 [] true
      = (utf8 "200", utf8 "ModelX") :=
  ⟨(checkURL_model_name (fun _ _ _ => HttpResult.response 200 (some pageBodyModel)) 0 []
      [] [] (utf8 "ModelX") [] rfl
      ((contains_eq_false_iff _ _).mp (by decide)) (by decide) (by decide) (by decide)).trans
      (by decide),
   (checkURL_model_name (fun _ _ _ => HttpResult.response 200 (some pageBodyModelTail)) 0 []
      (utf8 "<script>") (utf8 "abc ") (utf8 " ModelX &lt;br&gt;TAIL")
      (utf8 ", \"description\": \"モデル…Other\"") rfl
      ((contains_eq_false_iff _ _).mp (by decide)) (by decide) (by decide) (by decide)).trans
      (by decide)⟩

/-! ## The code sequencer -/

theorem wrapInt_of_range (x : Int) (hlo : -(2 ^ 63) ≤ x) (hhi : x < 2 ^ 63) : wrapInt x = x := by
  unfold wrapInt
  norm_num at hlo hhi ⊢
  omega

theorem parseDigitsAux_lt : ∀ (ds : GoString) (m n : Nat),
    parseDigitsAux ds m = some n → n < (m + 1) * 10 ^ ds.length := by
  intro ds
  induction ds with
  | nil =>
    intro m n h
    simp [parseDigitsAux] at h
    simp
    omega
  | cons c t ih =>
    intro m n h
    by_cases hc : 48 ≤ c ∧ c ≤ 57
    · simp only [parseDigitsAux, hc, and_self, if_true] at h
      have h1 := ih _ _ h
      have h2 : (m * 10 + (c - 48) + 1) * 10 ^ t.length ≤ ((m + 1) * 10) * 10 ^ t.length :=
        Nat.mul_le_mul_right _ (by omega)
      calc n < (m * 10 + (c - 48) + 1) * 10 ^ t.length := h1
        _ ≤ ((m + 1) * 10) * 10 ^ t.length := h2
        _ = (m + 1) * 10 ^ (c :: t).length := by
          rw [List.length_cons, pow_succ]; ring
    · simp [parseDigitsAux, hc] at h

/-- What a successful `strconv.Atoi` read: digits `ds`, the whole string or all
but a leading sign, with value `m`, and the result `m` or `-m` in range. -/
theorem Atoi_some (s : GoString) (n : Int) (h : Atoi s = some n) :
    ∃ (ds : GoString) (m : Nat), ds.length ≤ s.length ∧ parseDigitsAux ds 0 = some m ∧
      ((n = m ∧ m < 2 ^ 63) ∨ (n = -(m : Int) ∧ m ≤ 2 ^ 63 ∧ ds.length + 1 = s.length)) := by
  cases s with
  | nil => simp [Atoi] at h
  | cons c t =>
    by_cases hs : c = 45 ∨ c = 43
    · by_cases ht : t = []
      · simp [Atoi, hs, ht] at h
      · cases hm : parseDigitsAux t 0 with
        | none => simp [Atoi, hs, ht, hm] at h
        | some m =>
          refine ⟨t, m, by simp, hm, ?_⟩
          simp only [Atoi, hs, ht, hm, if_true, if_false] at h
          by_cases hc : c = 45
          · rw [if_pos hc] at h
            by_cases hr : m ≤ 2 ^ 63
            · rw [if_pos hr] at h
              exact Or.inr ⟨(Option.some.inj h).symm, hr, by simp⟩
            · rw [if_neg hr] at h
              exact absurd h (by simp)
          · rw [if_neg hc] at h
            by_cases hr : m < 2 ^ 63
            · rw [if_pos hr] at h
              exact Or.inl ⟨(Option.some.inj h).symm, hr⟩
            · rw [if_neg hr] at h
              exact absurd h (by simp)
    · have hc : ¬ c = 45 := fun hc => hs (Or.inl hc)
      have hne : ¬ (c :: t = []) := by simp
      cases hm : parseDigitsAux (c :: t) 0 with
      | none => simp [Atoi, hs, hm] at h
      | some m =>
        refine ⟨c :: t, m, le_refl _, hm, ?_⟩
        simp only [Atoi, hs, hne, hm, if_false] at h
        rw [if_neg hc] at h
        by_cases hr : m < 2 ^ 63
        · rw [if_pos hr] at h
          exact Or.inl ⟨(Option.some.inj h).symm, hr⟩
        · rw [if_neg hr] at h
          exact absurd h (by simp)

/-- `strconv.Atoi` returns a value of the 64-bit `int` range. -/
theorem Atoi_range (s : GoString) (n : Int) (h : Atoi s = some n) :
    -(2 ^ 63) ≤ n ∧ n < 2 ^ 63 := by
  obtain ⟨ds, m, _, _, hcase⟩ := Atoi_some s n h
  rcases hcase with ⟨hn, hm⟩ | ⟨hn, hm, _⟩
  · have hm2 : (m : Int) < 2 ^ 63 := by exact_mod_cast hm
    norm_num at hm2 ⊢
    omega
  · have hm2 : (m : Int) ≤ 2 ^ 63 := by exact_mod_cast hm
    norm_num at hm2 ⊢
    omega

/-- A string of five bytes parses to a number from `-9999` to `99999`. -/
theorem Atoi_five (s : GoString) (n : Int) (hlen : s.length = 5) (h : Atoi s = some n) :
    -9999 ≤ n ∧ n ≤ 99999 := by
  obtain ⟨ds, m, hds, hp, hcase⟩ := Atoi_some s n h
  have hb := parseDigitsAux_lt _ _ _ hp
  rcases hcase with ⟨hn, _⟩ | ⟨hn, _, hl⟩
  · have h5 : 10 ^ ds.length ≤ 10 ^ 5 := Nat.pow_le_pow_right (by omega) (by omega)
    norm_num at hb h5
    omega
  · have h4 : ds.length = 4 := by omega
    rw [h4] at hb
    norm_num at hb
    omega

theorem zeroPad_length (w : Nat) (ds : GoString) : (zeroPad w ds).length = max w ds.length := by
  simp [zeroPad]
  omega

/-- The padded rendering of a number from `-9999` to `99999` has five bytes. -/
theorem sprintfZeroPad_length_five (c : Int) (hlo : -9999 ≤ c) (hhi : c ≤ 99999) :
    (sprintfZeroPad codeLength c).length = 5 := by
  unfold sprintfZeroPad codeLength
  by_cases hneg : c < 0
  · have hb : c.natAbs < 10 ^ (3 + 1) := by norm_num; omega
    have := formatNat_length_le 3 _ hb
    have := formatNat_length_pos c.natAbs
    simp [hneg, zeroPad_length]
    omega
  · have hb : c.natAbs < 10 ^ (4 + 1) := by norm_num; omega
    have := formatNat_length_le 4 _ hb
    simp [hneg, zeroPad_length]
    omega

/-- From `100000` on the padded rendering is the plain decimal rendering, with
more than five digits. -/
theorem sprintfZeroPad_large (c : Int) (h : 100000 ≤ c) :
    sprintfZeroPad codeLength c = Itoa c ∧ 5 < (Itoa c).length := by
  have hneg : ¬ c < 0 := by omega
  have hb : 10 ^ 5 ≤ c.natAbs := by norm_num; omega
  have hl := formatNat_length_gt 5 _ hb
  constructor
  · simp only [sprintfZeroPad, Itoa, hneg, if_false, zeroPad, codeLength]
    have : 5 - (formatNat c.natAbs).length = 0 := by omega
    simp [this]
  · simp only [Itoa, hneg, if_false]
    omega

/-! ## The driver loop -/

theorem mainLoop_codes (net : Network) (pfx : GoString) (startDigits rangeCount : Int) :
    ∀ (fuel : Nat) (i : Int) (st : Run), fuel = (rangeCount - i).toNat →
      (mainLoop net pfx startDigits rangeCount fuel i st).codes
        = st.codes ++ (List.range fuel).map (fun j : Nat => fullCodeAt pfx startDigits (i + j)) := by
  intro fuel
  induction fuel with
  | zero => intro i st _; simp [mainLoop]
  | succ f ih =>
    intro i st hf
    have hi : i < rangeCount := by omega
    simp only [mainLoop, hi, if_true]
    rw [ih (i + 1) _ (by omega), List.range_succ_eq_map]
    simp only [iteration, List.map_cons, List.map_map, List.append_assoc, List.singleton_append,
      Nat.cast_zero, add_zero]
    congr 2
    apply List.map_congr_left
    intro j _
    simp only [Function.comp, Nat.cast_succ]
    congr 1
    ring

theorem mainLoop_requests_length (net : Network) (pfx : GoString) (startDigits rangeCount : Int) :
    ∀ (fuel : Nat) (i : Int) (st : Run), fuel = (rangeCount - i).toNat →
      (mainLoop net pfx startDigits rangeCount fuel i st).requests.length
        = st.requests.length + 3 * fuel := by
  intro fuel
  induction fuel with
  | zero => intro i st _; simp [mainLoop]
  | succ f ih =>
    intro i st hf
    have hi : i < rangeCount := by omega
    simp only [mainLoop, hi, if_true]
    rw [ih (i + 1) _ (by omega)]
    simp [iteration]
    omega

theorem mainLoop_exitCode (net : Network) (pfx : GoString) (startDigits rangeCount : Int) :
    ∀ (fuel : Nat) (i : Int) (st : Run),
      (mainLoop net pfx startDigits rangeCount fuel i st).exitCode = st.exitCode := by
  intro fuel
  induction fuel with
  | zero => intro i st; simp [mainLoop]
  | succ f ih =>
    intro i st
    by_cases hi : i < rangeCount
    · simp only [mainLoop, hi, if_true]
      rw [ih]
      simp [iteration]
    · simp [mainLoop, hi]

/-- The result of validation on three arguments that pass every check. -/
theorem parseArgs_accept (prog startID rangeCountStr : GoString) (startDigits rangeCount : Int)
    (hN : Atoi rangeCountStr = some rangeCount) (hpos : 0 < rangeCount)
    (hlen : codeLength < startID.length)
    (hd : Atoi (startID.drop (startID.length - codeLength)) = some startDigits) :
    parseArgs [prog, startID, rangeCountStr]
      = some (startID.take (startID.length - codeLength), startDigits, rangeCount) := by
  have hnp : ¬ rangeCount ≤ 0 := by omega
  simp [parseArgs, hN, hnp, hlen, hd]

/-- The codes of an accepted run: `fullCode` of the iterations `0` to
`rangeCount - 1`, in order. -/
theorem goMain_codes (net : Network) (prog startID rangeCountStr : GoString)
    (startDigits rangeCount : Int)
    (hN : Atoi rangeCountStr = some rangeCount) (hpos : 0 < rangeCount)
    (hlen : codeLength < startID.length)
    (hd : Atoi (startID.drop (startID.length - codeLength)) = some startDigits) :
    (goMain net [prog, startID, rangeCountStr]).codes
      = (List.range rangeCount.toNat).map (fun j : Nat =>
          fullCodeAt (startID.take (startID.length - codeLength)) startDigits j) := by
  unfold goMain
  rw [parseArgs_accept prog startID rangeCountStr startDigits rangeCount hN hpos hlen hd]
  simp only
  rw [mainLoop_codes net _ _ _ _ 0 _ (by omega)]
  simp

/-- The Go sum `startDigits + i` is the mathematical sum as long as that stays
below `2^63`, for start digits of five bytes and `i` from zero up. -/
theorem currentDigitsAt_eq (startDigits : Int) (i : Nat) (hlo : -9999 ≤ startDigits)
    (hfit : startDigits + i < 2 ^ 63) : currentDigitsAt startDigits i = startDigits + i := by
  apply wrapInt_of_range _ _ hfit
  norm_num
  omega

theorem goMain_codes_getElem (net : Network) (prog startID rangeCountStr : GoString)
    (startDigits rangeCount : Int)
    (hN : Atoi rangeCountStr = some rangeCount) (hpos : 0 < rangeCount)
    (hlen : codeLength < startID.length)
    (hd : Atoi (startID.drop (startID.length - codeLength)) = some startDigits)
    (i : Nat) (hi : i < rangeCount.toNat) :
    (goMain net [prog, startID, rangeCountStr]).codes[i]?
      = some (startID.take (startID.length - codeLength) ++
          sprintfZeroPad codeLength (currentDigitsAt startDigits i)) := by
  rw [goMain_codes net prog startID rangeCountStr startDigits rangeCount hN hpos hlen hd]
  simp [List.getElem?_map, List.getElem?_range hi, fullCodeAt]

theorem startDigits_bounds (startID : GoString) (startDigits : Int)
    (hlen : codeLength < startID.length)
    (hd : Atoi (startID.drop (startID.length - codeLength)) = some startDigits) :
    -9999 ≤ startDigits ∧ startDigits ≤ 99999 := by
  apply Atoi_five _ _ _ hd
  unfold codeLength at hlen ⊢
  simp
  omega

/-- C5: an accepted run with prefix `p`, start digits `d` and count `N`
generates exactly `N` codes, in order, and the `i`-th is `p` followed by
`Sprintf("%0*d", 5, d + i)`. The sum is the Go `int` sum of line 74; it is the
mathematical sum for every `i` with `d + i < 2^63`, where the suffixes go up by
one from code to code, starting at `d`. -/
theorem goMain_code_sequence (net : Network) (prog startID rangeCountStr : GoString)
    (startDigits rangeCount : Int)
    (hN : Atoi rangeCountStr = some rangeCount) (hpos : 0 < rangeCount)
    (hlen : codeLength < startID.length)
    (hd : Atoi (startID.drop (startID.length - codeLength)) = some startDigits) :
    (goMain net [prog, startID, rangeCountStr]).codes.length = rangeCount.toNat ∧
    (∀ i : Nat, i < rangeCount.toNat →
      (goMain net [prog, startID, rangeCountStr]).codes[i]?
        = some (startID.take (startID.length - codeLength) ++
            sprintfZeroPad codeLength (currentDigitsAt startDigits i))) ∧
    (∀ i : Nat, i < rangeCount.toNat → startDigits + i < 2 ^ 63 →
      (goMain net [prog, startID, rangeCountStr]).codes[i]?
        = some (startID.take (startID.length - codeLength) ++
            sprintfZeroPad codeLength (startDigits + i))) := by
  refine ⟨?_, ?_, ?_⟩
  · rw [goMain_codes net prog startID rangeCountStr startDigits rangeCount hN hpos hlen hd]
    simp
  · intro i hi
    exact goMain_codes_getElem net prog startID rangeCountStr startDigits rangeCount
      hN hpos hlen hd i hi
  · intro i hi hfit
    rw [goMain_codes_getElem net prog startID rangeCountStr startDigits rangeCount
      hN hpos hlen hd i hi,
      currentDigitsAt_eq startDigits i (startDigits_bounds startID startDigits hlen hd).1 hfit]

/-- C5 at start code `ab00100` and count 2: the codes are `ab00100` and
`ab00101`. -/
theorem goMain_code_sequence_witness :
    (goMain netDown [utf8 "prog", utf8 "ab00100", utf8 "2"]).codes.length = 2 ∧
    (goMain netDown [utf8 "prog", utf8 "ab00100", utf8 "2"]).codes[0]? = some (utf8 "ab00100") ∧
    (goMain netDown [utf8 "prog", utf8 "ab00100", utf8 "2"]).codes[1]? = some (utf8 "ab00101") :=
  ⟨(goMain_code_sequence netDown (utf8 "prog") (utf8 "ab00100") (utf8 "2") 100 2
      (by decide) (by decide) (by decide) (by decide)).1,
   ((goMain_code_sequence netDown (utf8 "prog") (utf8 "ab00100") (utf8 "2") 100 2
      (by decide) (by decide) (by decide) (by decide)).2.2 0 (by decide) (by decide)).trans
      (by decide),
   ((goMain_code_sequence netDown (utf8 "prog") (utf8 "ab00100") (utf8 "2") 100 2
      (by decide) (by decide) (by decide) (by decide)).2.2 1 (by decide) (by decide)).trans
      (by decide)⟩

/-- C6, as stated, fails: from start code `ab99999` the second code is
`ab100000`, one byte longer than the start code, with a suffix of six digits. -/
theorem fixed_width_fails :
    (goMain netDown [utf8 "prog", utf8 "ab99999", utf8 "2"]).codes
      = [utf8 "ab99999", utf8 "ab100000"] ∧
    ¬ (∀ code ∈ (goMain netDown [utf8 "prog", utf8 "ab99999", utf8 "2"]).codes,
        code.length = (utf8 "ab99999").length) := by
  decide

/-- C6, amended: in an accepted run every code whose number `startDigits + i`
is at most `99999` is the original prefix followed by a suffix of exactly
`codeLength` bytes, and has the length of the start code. -/
theorem goMain_code_fixed_width (net : Network) (prog startID rangeCountStr : GoString)
    (startDigits rangeCount : Int)
    (hN : Atoi rangeCountStr = some rangeCount) (hpos : 0 < rangeCount)
    (hlen : codeLength < startID.length)
    (hd : Atoi (startID.drop (startID.length - codeLength)) = some startDigits)
    (i : Nat) (hi : i < rangeCount.toNat) (hfit : startDigits + i ≤ 99999) :
    ∃ suffix : GoString,
      (goMain net [prog, startID, rangeCountStr]).codes[i]?
        = some (startID.take (startID.length - codeLength) ++ suffix) ∧
      suffix.length = codeLength ∧
      (startID.take (startID.length - codeLength) ++ suffix).length = startID.length := by
  have hb := startDigits_bounds startID startDigits hlen hd
  have hcur : currentDigitsAt startDigits i = startDigits + i :=
    currentDigitsAt_eq startDigits i hb.1 (by norm_num; omega)
  have hl : (sprintfZeroPad codeLength (currentDigitsAt startDigits i)).length = 5 := by
    rw [hcur]
    exact sprintfZeroPad_length_five _ (by omega) hfit
  refine ⟨sprintfZeroPad codeLength (currentDigitsAt startDigits i), ?_, hl, ?_⟩
  · exact goMain_codes_getElem net prog startID rangeCountStr startDigits rangeCount
      hN hpos hlen hd i hi
  · rw [List.length_append, hl, List.length_take]
    unfold codeLength at hlen ⊢
    omega

/-- C6, amended, at prefix `ab` and digits 42: the code is `ab00042`. -/
theorem goMain_code_fixed_width_witness :
    (∃ suffix : GoString,
      (goMain netDown [utf8 "prog", utf8 "ab00042", utf8 "1"]).codes[0]?
        = some (utf8 "ab" ++ suffix) ∧
      suffix.length = 5 ∧ (utf8 "ab" ++ suffix).length = 7) ∧
    (goMain netDown [utf8 "prog", utf8 "ab00042", utf8 "1"]).codes = [utf8 "ab00042"] :=
  ⟨goMain_code_fixed_width netDown (utf8 "prog") (utf8 "ab00042") (utf8 "1") 42 1
      (by decide) (by decide) (by decide) (by decide) 0 (by decide) (by decide),
   by decide⟩

/-- C9: in an accepted run, an iteration whose `currentDigits` (the Go sum
`startDigits + i`) is at least `100000` still produces a code: the prefix
followed by the plain decimal rendering of that number, which has more than five
digits. For `startDigits + i < 2^63` the Go sum is the mathematical sum. -/
theorem goMain_code_beyond_width (net : Network) (prog startID rangeCountStr : GoString)
    (startDigits rangeCount : Int)
    (hN : Atoi rangeCountStr = some rangeCount) (hpos : 0 < rangeCount)
    (hlen : codeLength < startID.length)
    (hd : Atoi (startID.drop (startID.length - codeLength)) = some startDigits)
    (i : Nat) (hi : i < rangeCount.toNat) :
    (100000 ≤ currentDigitsAt startDigits i →
      (goMain net [prog, startID, rangeCountStr]).codes[i]?
        = some (startID.take (startID.length - codeLength) ++
            Itoa (currentDigitsAt startDigits i)) ∧
      5 < (Itoa (currentDigitsAt startDigits i)).length) ∧
    (100000 ≤ startDigits + i → startDigits + i < 2 ^ 63 →
      (goMain net [prog, startID, rangeCountStr]).codes[i]?
        = some (startID.take (startID.length - codeLength) ++ Itoa (startDigits + i)) ∧
      5 < (Itoa (startDigits + i)).length) := by
  have hget := goMain_codes_getElem net prog startID rangeCountStr startDigits rangeCount
    hN hpos hlen hd i hi
  constructor
  · intro hbig
    rw [hget, (sprintfZeroPad_large _ hbig).1]
    exact ⟨rfl, (sprintfZeroPad_large _ hbig).2⟩
  · intro hbig hfit
    have hcur := currentDigitsAt_eq startDigits i
      (startDigits_bounds startID startDigits hlen hd).1 hfit
    rw [hget, hcur, (sprintfZeroPad_large _ hbig).1]
    exact ⟨rfl, (sprintfZeroPad_large _ hbig).2⟩

/-- C9 at start code `ab99999`, second iteration: the code is `ab100000`. -/
theorem goMain_code_beyond_width_witness :
    (goMain netDown [utf8 "prog", utf8 "ab99999", utf8 "3"]).codes[1]?
      = some (utf8 "ab100000") ∧
    5 < (Itoa (99999 + (1 : Nat))).length :=
  ⟨((goMain_code_beyond_width netDown (utf8 "prog") (utf8 "ab99999") (utf8 "3") 99999 3
      (by decide) (by decide) (by decide) (by decide) 1 (by decide)).2
      (by decide) (by decide)).1.trans (by decide),
   ((goMain_code_beyond_width netDown (utf8 "prog") (utf8 "ab99999") (utf8 "3") 99999 3
      (by decide) (by decide) (by decide) (by decide) 1 (by decide)).2
      (by decide) (by decide)).2⟩

/-! ## Start codes with a suffix of digits -/

theorem formatNat_zero : formatNat 0 = [48] := by decide

/-- Rendering the value of a non-empty string of digits, padded to the length of
the string, gives the string back. -/
theorem zeroPad_formatNat_parse : ∀ (ds : GoString) (m : Nat),
    parseDigitsAux ds 0 = some m → ds ≠ [] → zeroPad ds.length (formatNat m) = ds := by
  intro ds
  induction ds using List.reverseRecOn with
  | nil => intro m _ hne; exact absurd rfl hne
  | append_singleton init c ih =>
    intro m h _
    rw [parseDigitsAux_append] at h
    cases hinit : parseDigitsAux init 0 with
    | none => simp [hinit] at h
    | some k =>
      rw [hinit, Option.some_bind] at h
      by_cases hc : 48 ≤ c ∧ c ≤ 57
      · simp only [parseDigitsAux, hc, and_self, if_true, Option.some.injEq] at h
        by_cases hnil : init = []
        · subst hnil
          simp only [parseDigitsAux, Option.some.injEq] at hinit
          have hm : m < 10 := by omega
          have hcm : 48 + m = c := by omega
          rw [formatNat_eq, if_pos hm, hcm]
          simp [zeroPad]
        · have hih := ih k hinit hnil
          have hpos : 1 ≤ init.length := by
            cases init with
            | nil => exact absurd rfl hnil
            | cons x xs => simp
          by_cases hm : m < 10
          · have hk : k = 0 := by omega
            have hcm : 48 + m = c := by omega
            rw [hk, formatNat_zero] at hih
            rw [formatNat_eq, if_pos hm, hcm]
            have hrep : List.replicate init.length 48 = init := by
              have e : init.length = (init.length - 1) + 1 := by omega
              rw [e, List.replicate_succ']
              simpa [zeroPad] using hih
            simp [zeroPad, hrep]
          · have hdiv : m / 10 = k := by omega
            have hmod : 48 + m % 10 = c := by omega
            have hlen := formatNat_length_pos k
            rw [formatNat_eq, if_neg hm, hdiv, hmod]
            have hsub : (init ++ [c]).length - (formatNat k ++ [c]).length
                = init.length - (formatNat k).length := by
              simp
            unfold zeroPad at hih ⊢
            rw [hsub, ← List.append_assoc, hih]
      · simp [parseDigitsAux, hc] at h

/-- On a string of digits `strconv.Atoi` is the digit loop. -/
theorem Atoi_of_digits (s : GoString) (d : Int) (hdig : ∀ c ∈ s, 48 ≤ c ∧ c ≤ 57)
    (h : Atoi s = some d) : ∃ m : Nat, parseDigitsAux s 0 = some m ∧ d = m := by
  cases s with
  | nil => simp [Atoi] at h
  | cons c t =>
    have hc := hdig c (by simp)
    have hs : ¬ (c = 45 ∨ c = 43) := by omega
    have h45 : ¬ c = 45 := by omega
    have hne : ¬ (c :: t = []) := by simp
    cases hm : parseDigitsAux (c :: t) 0 with
    | none => simp [Atoi, hs, hm] at h
    | some m =>
      refine ⟨m, rfl, ?_⟩
      simp only [Atoi, hs, hne, hm, if_false] at h
      rw [if_neg h45] at h
      by_cases hr : m < 2 ^ 63
      · rw [if_pos hr] at h
        exact (Option.some.inj h).symm
      · rw [if_neg hr] at h
        exact absurd h (by simp)

/-- An accepted start code whose last five bytes are decimal digits is itself
the first code generated. -/
theorem first_code_of_digit_suffix (net : Network) (prog startID rangeCountStr : GoString)
    (startDigits rangeCount : Int)
    (hN : Atoi rangeCountStr = some rangeCount) (hpos : 0 < rangeCount)
    (hlen : codeLength < startID.length)
    (hd : Atoi (startID.drop (startID.length - codeLength)) = some startDigits)
    (hdig : ∀ c ∈ startID.drop (startID.length - codeLength), 48 ≤ c ∧ c ≤ 57) :
    (goMain net [prog, startID, rangeCountStr]).codes[0]? = some startID := by
  have hget := goMain_codes_getElem net prog startID rangeCountStr startDigits rangeCount
    hN hpos hlen hd 0 (by omega)
  obtain ⟨m, hm, hdm⟩ := Atoi_of_digits _ _ hdig hd
  have hl : (startID.drop (startID.length - codeLength)).length = codeLength := by
    unfold codeLength at hlen ⊢
    simp
    omega
  have hne : startID.drop (startID.length - codeLength) ≠ [] := by
    intro h
    rw [h] at hl
    simp [codeLength] at hl
  have hrt := zeroPad_formatNat_parse _ m hm hne
  rw [hl] at hrt
  have hb := startDigits_bounds startID startDigits hlen hd
  have hcur : currentDigitsAt startDigits (0 : Nat) = startDigits :=
    (currentDigitsAt_eq startDigits 0 hb.1 (by norm_num; omega)).trans (by simp)
  have hneg : ¬ startDigits < 0 := by omega
  have hs : sprintfZeroPad codeLength startDigits
      = startID.drop (startID.length - codeLength) := by
    simp only [sprintfZeroPad, hneg, if_false]
    rw [hdm, Int.natAbs_ofNat, hrt]
  rw [hget, hcur, hs, List.take_append_drop]

/-- C8 at the start code `ab+0100`: validation accepts it, with prefix `ab` and
start digits 100, and the first code generated is `ab00100`, not the start code.
The start code `ab00100` of the specification is reproduced. -/
theorem first_code_signed_start :
    parseArgs [utf8 "prog", utf8 "ab+0100", utf8 "1"] = some (utf8 "ab", 100, 1) ∧
    (goMain netDown [utf8 "prog", utf8 "ab+0100", utf8 "1"]).codes = [utf8 "ab00100"] ∧
    utf8 "ab00100" ≠ utf8 "ab+0100" ∧
    (goMain netDown [utf8 "prog", utf8 "ab00100", utf8 "1"]).codes = [utf8 "ab00100"] := by
  decide

/-! ## Argument validation -/

theorem parseArgs_eq_none_iff (osArgs : List GoString) :
    parseArgs osArgs = none ↔ ArgsRejected osArgs := by
  rcases osArgs with _ | ⟨a, _ | ⟨b, _ | ⟨c, _ | ⟨d, rest⟩⟩⟩⟩
  · simp [parseArgs, ArgsRejected]
  · simp [parseArgs, ArgsRejected]
  · simp [parseArgs, ArgsRejected]
  · simp only [ArgsRejected, List.length_cons, List.length_nil, ne_eq, not_true_eq_false,
      false_or, List.getD_cons_succ, List.getD_cons_zero]
    cases hN : Atoi c with
    | none => simp [parseArgs, hN]
    | some N =>
      by_cases hpos : N ≤ 0
      · have : ¬ 0 < N := by omega
        simp [parseArgs, hN, hpos, this]
      · have hp : 0 < N := by omega
        by_cases hlen : codeLength < b.length
        · cases hd : Atoi (b.drop (b.length - codeLength)) with
          | none => simp [parseArgs, hN, hpos, hlen, hd]
          | some dg => simp [parseArgs, hN, hpos, hp, hlen, hd]
        · simp [parseArgs, hN, hpos, hlen]
  · simp [parseArgs, ArgsRejected]

theorem goMain_of_accept (net : Network) (osArgs : List GoString) (pfx : GoString)
    (startDigits rangeCount : Int) (h : parseArgs osArgs = some (pfx, startDigits, rangeCount)) :
    (goMain net osArgs).exitCode = 0 ∧
    (goMain net osArgs).requests.length = 3 * rangeCount.toNat ∧
    (goMain net osArgs).codes.length = rangeCount.toNat := by
  unfold goMain
  rw [h]
  simp only
  refine ⟨?_, ?_, ?_⟩
  · rw [mainLoop_exitCode]
  · rw [mainLoop_requests_length net _ _ _ _ 0 _ (by omega)]
    simp
  · rw [mainLoop_codes net _ _ _ _ 0 _ (by omega)]
    simp

theorem parseArgs_rangeCount_pos (osArgs : List GoString) (pfx : GoString)
    (startDigits rangeCount : Int) (h : parseArgs osArgs = some (pfx, startDigits, rangeCount)) :
    0 < rangeCount := by
  rcases osArgs with _ | ⟨a, _ | ⟨b, _ | ⟨c, _ | ⟨d, rest⟩⟩⟩⟩
  · simp [parseArgs] at h
  · simp [parseArgs] at h
  · simp [parseArgs] at h
  · cases hN : Atoi c with
    | none => simp [parseArgs, hN] at h
    | some N =>
      by_cases hpos : N ≤ 0
      · simp [parseArgs, hN, hpos] at h
      · by_cases hlen : codeLength < b.length
        · cases hd : Atoi (b.drop (b.length - codeLength)) with
          | none => simp [parseArgs, hN, hpos, hlen, hd] at h
          | some dg =>
            simp [parseArgs, hN, hpos, hlen, hd] at h
            omega
        · simp [parseArgs, hN, hpos, hlen] at h
  · simp [parseArgs] at h

/-- C7: the run is rejected (exit status 1) exactly when the argument count is
not 2, or the range argument does not parse as an integer greater than 0, or the
start code is not longer than `codeLength`, or its last `codeLength` bytes do not
parse as an integer; a rejected run generates no code, issues no request and
writes nothing; every other run ends with status 0 and issues requests. -/
theorem goMain_rejects_iff (net : Network) (osArgs : List GoString) :
    ((goMain net osArgs).exitCode = 1 ↔ ArgsRejected osArgs) ∧
    (ArgsRejected osArgs →
      (goMain net osArgs).codes = [] ∧ (goMain net osArgs).requests = [] ∧
      (goMain net osArgs).stdout = []) ∧
    (¬ ArgsRejected osArgs →
      (goMain net osArgs).exitCode = 0 ∧ (goMain net osArgs).codes ≠ [] ∧
      (goMain net osArgs).requests ≠ []) := by
  cases hp : parseArgs osArgs with
  | none =>
    have hr : ArgsRejected osArgs := (parseArgs_eq_none_iff osArgs).mp hp
    simp [goMain, hp, hr]
  | some v =>
    obtain ⟨pfx, startDigits, rangeCount⟩ := v
    have hr : ¬ ArgsRejected osArgs := by
      rw [← parseArgs_eq_none_iff, hp]
      simp
    have hpos := parseArgs_rangeCount_pos osArgs pfx startDigits rangeCount hp
    obtain ⟨he, hq, hc⟩ := goMain_of_accept net osArgs pfx startDigits rangeCount hp
    have hn : 0 < rangeCount.toNat := by omega
    refine ⟨?_, fun h => absurd h hr, fun _ => ⟨he, ?_, ?_⟩⟩
    · simp [he, hr]
    · intro h
      rw [h] at hc
      simp at hc
      omega
    · intro h
      rw [h] at hq
      simp at hq
      omega

/-- C7 at four rejected argument lists, one for each condition, and at an
accepted one. -/
theorem goMain_rejects_iff_witness :
    (goMain netDown [utf8 "prog", utf8 "ab00100"]).exitCode = 1 ∧
    (goMain netDown [utf8 "prog", utf8 "ab00100", utf8 "0"]).exitCode = 1 ∧
    (goMain netDown [utf8 "prog", utf8 "00100", utf8 "2"]).requests = [] ∧
    (goMain netDown [utf8 "prog", utf8 "ab0010x", utf8 "2"]).codes = [] ∧
    (goMain netDown [utf8 "prog", utf8 "ab00100", utf8 "2"]).exitCode = 0 ∧
    (goMain netDown [utf8 "prog", utf8 "ab00100", utf8 "2"]).requests ≠ [] :=
  ⟨(goMain_rejects_iff netDown [utf8 "prog", utf8 "ab00100"]).1.mpr (Or.inl (by decide)),
   (goMain_rejects_iff netDown [utf8 "prog", utf8 "ab00100", utf8 "0"]).1.mpr
     ((parseArgs_eq_none_iff _).mp (by decide)),
   ((goMain_rejects_iff netDown [utf8 "prog", utf8 "00100", utf8 "2"]).2.1
     (Or.inr (Or.inr (Or.inl (by decide))))).2.1,
   ((goMain_rejects_iff netDown [utf8 "prog", utf8 "ab0010x", utf8 "2"]).2.1
     (Or.inr (Or.inr (Or.inr (by decide))))).1,
   ((goMain_rejects_iff netDown [utf8 "prog", utf8 "ab00100", utf8 "2"]).2.2
     (fun h => absurd ((parseArgs_eq_none_iff _).mpr h) (by decide))).1,
   ((goMain_rejects_iff netDown [utf8 "prog", utf8 "ab00100", utf8 "2"]).2.2
     (fun h => absurd ((parseArgs_eq_none_iff _).mpr h) (by decide))).2.2⟩

/-! ## First occurrences -/

/-- What `indexFrom` returns is the first offset at which `sub` starts. -/
theorem indexFrom_some_spec (sub : GoString) :
    ∀ (s : GoString) (k j : Nat), indexFrom sub s k = some j →
      ∃ n, j = k + n ∧ n ≤ s.length ∧ sub <+: s.drop n ∧ ∀ m, m < n → ¬ sub <+: s.drop m := by
  intro s
  induction s with
  | nil =>
    intro k j h
    by_cases hs : sub = []
    · simp only [indexFrom, hs, if_true, Option.some.injEq] at h
      exact ⟨0, by omega, by simp, by simp [hs], by intro m hm; omega⟩
    · simp [indexFrom, hs] at h
  | cons c t ih =>
    intro k j h
    rw [indexFrom_cons] at h
    by_cases hp : sub.isPrefixOf (c :: t) = true
    · rw [if_pos hp] at h
      refine ⟨0, by have := Option.some.inj h; omega, by simp, ?_, by intro m hm; omega⟩
      simpa using List.isPrefixOf_iff_prefix.mp hp
    · rw [if_neg hp] at h
      obtain ⟨n, hj, hn, hpre, hfirst⟩ := ih (k + 1) j h
      refine ⟨n + 1, by omega, by simp; omega, by simpa using hpre, ?_⟩
      intro m hm
      cases m with
      | zero =>
        intro hpz
        exact hp (List.isPrefixOf_iff_prefix.mpr (by simpa using hpz))
      | succ m =>
        have := hfirst m (by omega)
        simpa using this

theorem index_some_spec (s sub : GoString) (k : Nat) (h : Index s sub = some k) :
    k ≤ s.length ∧ sub <+: s.drop k ∧ ∀ m, m < k → ¬ sub <+: s.drop m := by
  obtain ⟨n, hj, hn, hpre, hfirst⟩ := indexFrom_some_spec sub s 0 k h
  have hk : k = n := by omega
  subst hk
  exact ⟨hn, hpre, hfirst⟩

/-- Before its first occurrence a non-empty string does not occur. -/
theorem not_occurs_take_of_index (s sub : GoString) (k : Nat) (hsub : sub ≠ [])
    (h : Index s sub = some k) : ¬ sub <:+: s.take k := by
  obtain ⟨hk, _, hfirst⟩ := index_some_spec s sub k h
  rintro ⟨a, b, hab⟩
  have hlen : (a ++ sub ++ b).length = k := by
    rw [hab, List.length_take]; omega
  have hsl : 1 ≤ sub.length := by
    cases sub with
    | nil => exact absurd rfl hsub
    | cons x xs => simp
  simp only [List.length_append] at hlen
  have hs : s = a ++ (sub ++ (b ++ s.drop k)) := by
    have := (List.take_append_drop k s).symm
    rw [← hab] at this
    simpa [List.append_assoc] using this
  apply hfirst a.length (by omega)
  rw [hs, List.drop_left]
  exact List.prefix_append _ _

theorem not_mem_of_not_occurs (s : GoString) (c : Nat) (h : ¬ [c] <:+: s) : c ∉ s := by
  intro hc
  obtain ⟨a, b, hab⟩ := List.mem_iff_append.mp hc
  exact h ⟨a, b, by simp [hab]⟩

/-! ## White space -/

theorem spaceEncodings_length_pos : ∀ e ∈ spaceEncodings, 1 ≤ e.length := by decide

theorem leadingSpace_eq_none_iff (s : GoString) :
    leadingSpace s = none ↔ ∀ e ∈ spaceEncodings, ¬ e <+: s := by
  simp [leadingSpace, List.find?_eq_none]

theorem trailingSpace_eq_none_iff (s : GoString) :
    trailingSpace s = none ↔ ∀ e ∈ spaceEncodings, ¬ e <:+ s := by
  simp [trailingSpace, List.find?_eq_none]

theorem leadingSpace_some (s : GoString) (w : Nat) (h : leadingSpace s = some w) :
    1 ≤ w ∧ w ≤ s.length := by
  unfold leadingSpace at h
  cases hf : spaceEncodings.find? (fun e => e.isPrefixOf s) with
  | none => simp [hf] at h
  | some e =>
    rw [hf] at h
    have hw : e.length = w := by simpa using h
    have hmem := List.mem_of_find?_eq_some hf
    have hp : e <+: s := by simpa using List.find?_some hf
    exact ⟨hw ▸ spaceEncodings_length_pos e hmem, hw ▸ hp.length_le⟩

theorem trailingSpace_some (s : GoString) (w : Nat) (h : trailingSpace s = some w) :
    1 ≤ w ∧ w ≤ s.length := by
  unfold trailingSpace at h
  cases hf : spaceEncodings.find? (fun e => e.isSuffixOf s) with
  | none => simp [hf] at h
  | some e =>
    rw [hf] at h
    have hw : e.length = w := by simpa using h
    have hmem := List.mem_of_find?_eq_some hf
    have hp : e <:+ s := by simpa using List.find?_some hf
    exact ⟨hw ▸ spaceEncodings_length_pos e hmem, hw ▸ hp.length_le⟩

theorem trimLeftSpace_suffix : ∀ (fuel : Nat) (s : GoString), trimLeftSpace fuel s <:+ s := by
  intro fuel
  induction fuel with
  | zero => intro s; exact List.suffix_refl s
  | succ f ih =>
    intro s
    cases h : leadingSpace s with
    | none => simp [trimLeftSpace, h]
    | some w =>
      simp only [trimLeftSpace, h]
      exact (ih _).trans (List.drop_suffix w s)

theorem trimRightSpace_initial : ∀ (fuel : Nat) (s : GoString), trimRightSpace fuel s <+: s := by
  intro fuel
  induction fuel with
  | zero => intro s; exact List.prefix_refl s
  | succ f ih =>
    intro s
    cases h : trailingSpace s with
    | none => simp [trimRightSpace, h]
    | some w =>
      simp only [trimRightSpace, h]
      exact (ih _).trans (List.take_prefix _ s)

theorem trimLeftSpace_leading : ∀ (fuel : Nat) (s : GoString), s.length ≤ fuel →
    leadingSpace (trimLeftSpace fuel s) = none := by
  intro fuel
  induction fuel with
  | zero =>
    intro s hs
    have : s = [] := List.length_eq_zero.mp (by omega)
    subst this
    decide
  | succ f ih =>
    intro s hs
    cases h : leadingSpace s with
    | none => simp [trimLeftSpace, h]
    | some w =>
      simp only [trimLeftSpace, h]
      have hw := leadingSpace_some s w h
      apply ih
      rw [List.length_drop]
      omega

theorem trimRightSpace_trailing : ∀ (fuel : Nat) (s : GoString), s.length ≤ fuel →
    trailingSpace (trimRightSpace fuel s) = none := by
  intro fuel
  induction fuel with
  | zero =>
    intro s hs
    have : s = [] := List.length_eq_zero.mp (by omega)
    subst this
    decide
  | succ f ih =>
    intro s hs
    cases h : trailingSpace s with
    | none => simp [trimRightSpace, h]
    | some w =>
      simp only [trimRightSpace, h]
      have hw := trailingSpace_some s w h
      apply ih
      rw [List.length_take]
      omega

/-- `strings.TrimSpace` returns a part of its argument. -/
theorem TrimSpace_occurs (s : GoString) : TrimSpace s <:+: s :=
  (trimRightSpace_initial _ _).isInfix.trans (trimLeftSpace_suffix _ _).isInfix

/-- The result of `strings.TrimSpace` does not start with a white-space rune. -/
theorem TrimSpace_leading (s : GoString) : leadingSpace (TrimSpace s) = none := by
  rw [leadingSpace_eq_none_iff]
  intro e he hp
  have hl := (leadingSpace_eq_none_iff _).mp (trimLeftSpace_leading s.length s (le_refl _)) e he
  exact hl (hp.trans (trimRightSpace_initial _ _))

/-- The result of `strings.TrimSpace` does not end with a white-space rune. -/
theorem TrimSpace_trailing (s : GoString) : trailingSpace (TrimSpace s) = none := by
  apply trimRightSpace_trailing
  exact (trimLeftSpace_suffix _ _).length_le

/-! ## The model name -/

theorem cut_trim_clean (x : GoString) (hq : 34 ∉ x) :
    34 ∉ TrimSpace (cutAtLineBreak x) ∧ ¬ brEntity <:+: TrimSpace (cutAtLineBreak x) := by
  have hbr : brEntity ≠ [] := by decide
  have hy : 34 ∉ cutAtLineBreak x ∧ ¬ brEntity <:+: cutAtLineBreak x := by
    unfold cutAtLineBreak
    cases h : Index x brEntity with
    | none => exact ⟨hq, (index_eq_none_iff x brEntity).mp h⟩
    | some i =>
      exact ⟨fun hm => hq (List.mem_of_mem_take hm), not_occurs_take_of_index x brEntity i hbr h⟩
  exact ⟨fun hm => hy.1 ((TrimSpace_occurs _).subset hm),
    fun ho => hy.2 (ho.trans (TrimSpace_occurs _))⟩

/-- The extracted model name is empty or the trimmed, cut text in front of a
double quote. -/
theorem extractModelName_cases (bodyString : GoString) :
    extractModelName bodyString = [] ∨
    ∃ x : GoString, 34 ∉ x ∧ extractModelName bodyString = TrimSpace (cutAtLineBreak x) := by
  unfold extractModelName
  cases h1 : Index bodyString jsonLdStartSnippet with
  | none => exact Or.inl rfl
  | some jsonLdStart =>
    simp only
    cases h2 : Index (bodyString.drop (jsonLdStart + jsonLdStartSnippet.length))
        modelStartSnippet with
    | none => exact Or.inl rfl
    | some modelStartRelative =>
      simp only
      cases h3 : Index (bodyString.drop (jsonLdStart + jsonLdStartSnippet.length +
          modelStartRelative + modelStartSnippet.length)) quote with
      | none => exact Or.inl rfl
      | some descValueEndRelative =>
        simp only
        refine Or.inr ⟨(bodyString.drop (jsonLdStart + jsonLdStartSnippet.length +
          modelStartRelative + modelStartSnippet.length)).take descValueEndRelative, ?_, rfl⟩
        have hq : quote = [34] := by decide
        rw [hq] at h3
        exact not_mem_of_not_occurs _ 34 (not_occurs_take_of_index _ [34] _ (by simp) h3)

/-- The model name has no double quote, no line-break entity, and no white
space at either end. -/
theorem extractModelName_clean (bodyString : GoString) :
    34 ∉ extractModelName bodyString ∧ ¬ brEntity <:+: extractModelName bodyString ∧
    leadingSpace (extractModelName bodyString) = none ∧
    trailingSpace (extractModelName bodyString) = none := by
  rcases extractModelName_cases bodyString with h | ⟨x, hx, h⟩
  · rw [h]
    refine ⟨by simp, ?_, by decide, by decide⟩
    rw [List.infix_nil]
    decide
  · rw [h]
    exact ⟨(cut_trim_clean x hx).1, (cut_trim_clean x hx).2, TrimSpace_leading _,
      TrimSpace_trailing _⟩

/-- C15: whatever the response and for both values of `isPageCheck`, the model
name returned by `checkURL` contains no double quote and no line-break entity,
neither starts nor ends with a white-space rune, and is empty unless the
returned status is `200` and the call is a page check. -/
theorem checkURL_model_name_clean (net : Network) (issued : Nat) (url : GoString)
    (isPageCheck : Bool) :
    34 ∉ (checkURL net issued url isPageCheck).2 ∧
    ¬ brEntity <:+: (checkURL net issued url isPageCheck).2 ∧
    leadingSpace (checkURL net issued url isPageCheck).2 = none ∧
    trailingSpace (checkURL net issued url isPageCheck).2 = none ∧
    ((checkURL net issued url isPageCheck).2 = [] ∨
      ((checkURL net issued url isPageCheck).1 = utf8 "200" ∧ isPageCheck = true)) := by
  have hnil : 34 ∉ ([] : GoString) ∧ ¬ brEntity <:+: ([] : GoString) ∧
      leadingSpace [] = none ∧ trailingSpace [] = none := by
    refine ⟨by simp, ?_, by decide, by decide⟩
    rw [List.infix_nil]
    decide
  have h200 : Itoa 200 = utf8 "200" := by decide
  unfold checkURL
  cases hnet : net checkURLClient url issued with
  | netError => exact ⟨hnil.1, hnil.2.1, hnil.2.2.1, hnil.2.2.2, Or.inl (by trivial)⟩
  | response statusCode body =>
    by_cases hc : statusCode = 200 ∧ isPageCheck = true
    · simp only [hc, and_self, if_true]
      cases body with
      | none => exact ⟨hnil.1, hnil.2.1, hnil.2.2.1, hnil.2.2.2, Or.inl (by trivial)⟩
      | some bodyString =>
        by_cases he : Contains bodyString errorMessageSnippet = true
        · simp only [he, if_true]
          exact ⟨hnil.1, hnil.2.1, hnil.2.2.1, hnil.2.2.2, Or.inl (by trivial)⟩
        · simp only [he, if_false]
          have hcl := extractModelName_clean bodyString
          exact ⟨hcl.1, hcl.2.1, hcl.2.2.1, hcl.2.2.2, Or.inr ⟨h200, trivial⟩⟩
    · simp only [hc, if_false]
      exact ⟨hnil.1, hnil.2.1, hnil.2.2.1, hnil.2.2.2, Or.inl (by trivial)⟩

/-- C11: on a 200-status page without the not-found marker, if the description
marker does not occur, or the model marker does not occur after the first
description marker, `checkURL` returns status `200` and an empty model name. `A`
is the text before the first description marker and `rest` the text after it.
`checkURL` is a total function: there is no error to raise. -/
theorem checkURL_marker_missing (net : Network) (issued : Nat) (url bodyString : GoString)
    (hnet : net checkURLClient url issued = HttpResult.response 200 (some bodyString))
    (hnf : ¬ errorMessageSnippet <:+: bodyString)
    (hmiss : ¬ jsonLdStartSnippet <:+: bodyString ∨
      ∃ A rest : GoString, bodyString = A ++ jsonLdStartSnippet ++ rest ∧
        (∀ m, m < A.length → ¬ jsonLdStartSnippet <+: (A ++ jsonLdStartSnippet ++ rest).drop m) ∧
        ¬ modelStartSnippet <:+: rest) :
    checkURL net issued url true = (utf8 "200", []) := by
  have hc : Contains bodyString errorMessageSnippet = false := (contains_eq_false_iff _ _).mpr hnf
  have h200 : Itoa 200 = utf8 "200" := by decide
  have hm : extractModelName bodyString = [] := by
    rcases hmiss with h | ⟨A, rest, hb, hfirst, hno⟩
    · have h1 := (index_eq_none_iff bodyString jsonLdStartSnippet).mpr h
      simp [extractModelName, h1]
    · subst hb
      have h1 := index_append_of_first A jsonLdStartSnippet rest hfirst
      have hd : (A ++ jsonLdStartSnippet ++ rest).drop (A.length + jsonLdStartSnippet.length)
          = rest := by
        rw [← List.length_append]
        exact List.drop_left _ _
      have h2 := (index_eq_none_iff rest modelStartSnippet).mpr hno
      unfold extractModelName
      simp only [h1, hd, h2]
  unfold checkURL
  rw [hnet]
  simp only [and_self, if_true, hc, h200, hm]
  rfl

/-- C11 at a page without the description marker and at a page whose only model
marker stands before the description marker. -/
theorem checkURL_marker_missing_witness :
    checkURL (fun _ _ _ => HttpResult.response 200 (some pageBodyNoDescription)) 0 [] true
      = (utf8 "200", []) ∧
    checkURL (fun _ _ _ => HttpResult.response 200 (some pageBodyNoModel)) 0 [] true
      = (utf8 "200", []) :=
  ⟨checkURL_marker_missing (fun _ _ _ => HttpResult.response 200 (some pageBodyNoDescription))
      0 [] pageBodyNoDescription rfl ((contains_eq_false_iff _ _).mp (by decide))
      (Or.inl ((contains_eq_false_iff _ _).mp (by decide))),
   checkURL_marker_missing (fun _ _ _ => HttpResult.response 200 (some pageBodyNoModel))
      0 [] pageBodyNoModel rfl ((contains_eq_false_iff _ _).mp (by decide))
      (Or.inr ⟨utf8 "モデル…Early <script>", utf8 "a plain description\"</script>", rfl,
        by decide, (contains_eq_false_iff _ _).mp (by decide)⟩)⟩

/-- C13: an image probe (`isPageCheck = false`) that receives a response with
status `s` returns the decimal string of `s` and an empty model name, whatever
the body, read or unreadable; a network error gives `-1` and an empty name. -/
theorem checkURL_image (net : Network) (issued : Nat) (url : GoString) :
    (∀ (s : Int) (body : Option GoString),
      net checkURLClient url issued = HttpResult.response s body →
      checkURL net issued url false = (Itoa s, [])) ∧
    (net checkURLClient url issued = HttpResult.netError →
      checkURL net issued url false = (utf8 "-1", [])) := by
  constructor
  · intro s body hnet
    simp [checkURL, hnet]
  · intro hnet
    simp [checkURL, hnet]

/-- C13 at an image response whose body carries the not-found marker and a model
name, at one whose body cannot be read, and at a network error. -/
theorem checkURL_image_witness :
    checkURL (fun _ _ _ => HttpResult.response 200 (some imageBodyMarkers)) 0 [] false
      = (utf8 "200", []) ∧
    checkURL (fun _ _ _ => HttpResult.response 404 none) 0 [] false = (utf8 "404", []) ∧
    checkURL netDown 0 [] false = (utf8 "-1", []) :=
  ⟨((checkURL_image (fun _ _ _ => HttpResult.response 200 (some imageBodyMarkers)) 0 []).1
      200 (some imageBodyMarkers) rfl).trans (by decide),
   ((checkURL_image (fun _ _ _ => HttpResult.response 404 none) 0 []).1 404 none rfl).trans
      (by decide),
   (checkURL_image netDown 0 []).2 rfl⟩

/-- The result of `checkSearch` on a 200 response whose body was read. -/
theorem checkSearch_of_body (net : Network) (issued : Nat) (url productID bodyString : GoString)
    (hnet : net checkSearchClient url issued = HttpResult.response 200 (some bodyString)) :
    checkSearch net issued url productID
      = if Contains bodyString searchHitSnippet = true ∧
          Contains bodyString (utf8 "/" ++ productID) = true then utf8 "200" else utf8 "404" := by
  simp [checkSearch, hnet]

/-- C17: on one and the same 200-status search body, a hit for a code `c2` is a
hit for every code `c` that `c2` starts with, because the code is matched as a
substring. -/
theorem checkSearch_shorter_code (net : Network) (issued issued2 : Nat)
    (url url2 bodyString c c2 : GoString)
    (hnet : net checkSearchClient url issued = HttpResult.response 200 (some bodyString))
    (hnet2 : net checkSearchClient url2 issued2 = HttpResult.response 200 (some bodyString))
    (hpre : c <+: c2)
    (hhit : checkSearch net issued2 url2 c2 = utf8 "200") :
    checkSearch net issued url c = utf8 "200" := by
  have h404 : utf8 "404" ≠ utf8 "200" := by decide
  rw [checkSearch_of_body net issued2 url2 c2 bodyString hnet2] at hhit
  rw [checkSearch_of_body net issued url c bodyString hnet]
  by_cases h2 : Contains bodyString searchHitSnippet = true ∧
      Contains bodyString (utf8 "/" ++ c2) = true
  · have hinf : (utf8 "/" ++ c) <:+: bodyString := by
      have hlong := (contains_iff_occurs _ _).mp h2.2
      obtain ⟨t, ht⟩ := hpre
      have hshort : (utf8 "/" ++ c) <+: (utf8 "/" ++ c2) := ⟨t, by rw [← ht, List.append_assoc]⟩
      exact hshort.isInfix.trans hlong
    rw [if_pos ⟨h2.1, (contains_iff_occurs _ _).mpr hinf⟩]
  · rw [if_neg h2] at hhit
    exact absurd hhit h404

/-- C17 at a body that lists only `ab001001`: it is a hit for `ab001001` and so
for `ab00100`. -/
theorem checkSearch_shorter_code_witness :
    checkSearch (fun _ _ _ => HttpResult.response 200 (some searchBodyLonger)) 0 []
      (utf8 "ab00100") = utf8 "200" ∧
    ¬ (utf8 "/ab00100\"") <:+: searchBodyLonger :=
  ⟨checkSearch_shorter_code (fun _ _ _ => HttpResult.response 200 (some searchBodyLonger)) 0 0
      [] [] searchBodyLonger (utf8 "ab00100") (utf8 "ab001001") rfl rfl (by decide) (by decide),
   (contains_eq_false_iff _ _).mp (by decide)⟩

/-! ## The report line and the diagnostic blocks of one pass -/

/-- C16: a pass whose page probe receives status 200 with a body that contains
the not-found marker, and whose image probe receives status 200, writes the
report line with page status `404` and then exactly the discontinued/redirected
block, whatever the search probe returns; the out-of-stock/hidden block is not
written. -/
theorem iteration_soft404 (net : Network) (pfx : GoString) (startDigits i : Int) (st : Run)
    (bodyString : GoString) (imageBody : Option GoString)
    (hpage : net checkURLClient (baseURLPagePrefix ++ fullCodeAt pfx startDigits i)
      st.requests.length = HttpResult.response 200 (some bodyString))
    (hmark : errorMessageSnippet <:+: bodyString)
    (himage : net checkURLClient
      (baseURLImagePrefix ++ fullCodeAt pfx startDigits i ++ baseURLImageSuffix)
      (st.requests.length + 1) = HttpResult.response 200 imageBody) :
    (iteration net pfx startDigits i st).stdout
      = st.stdout ++
        reportLine (fullCodeAt pfx startDigits i) (utf8 "404") (utf8 "200")
          (checkSearch net (st.requests.length + 2)
            (baseURLSearchPrefix ++ fullCodeAt pfx startDigits i ++ baseURLSearchSuffix)
            (fullCodeAt pfx startDigits i)) [] ::
        discontinuedBlock (baseURLPagePrefix ++ fullCodeAt pfx startDigits i)
          (baseURLImagePrefix ++ fullCodeAt pfx startDigits i ++ baseURLImageSuffix) ∧
    detect (utf8 "404") (utf8 "200")
        (checkSearch net (st.requests.length + 2)
          (baseURLSearchPrefix ++ fullCodeAt pfx startDigits i ++ baseURLSearchSuffix)
          (fullCodeAt pfx startDigits i))
        (baseURLPagePrefix ++ fullCodeAt pfx startDigits i)
        (baseURLImagePrefix ++ fullCodeAt pfx startDigits i ++ baseURLImageSuffix)
        (baseURLSearchPrefix ++ fullCodeAt pfx startDigits i ++ baseURLSearchSuffix)
      ≠ hiddenBlock (baseURLPagePrefix ++ fullCodeAt pfx startDigits i)
          (baseURLImagePrefix ++ fullCodeAt pfx startDigits i ++ baseURLImageSuffix)
          (baseURLSearchPrefix ++ fullCodeAt pfx startDigits i ++ baseURLSearchSuffix) := by
  have hc : Contains bodyString errorMessageSnippet = true := (contains_iff_occurs _ _).mpr hmark
  have hp : checkURL net st.requests.length (baseURLPagePrefix ++ fullCodeAt pfx startDigits i)
      true = (utf8 "404", []) := by
    simp [checkURL, hpage, hc]
  have h200 : Itoa 200 = utf8 "200" := by decide
  have hi : checkURL net (st.requests.length + 1)
      (baseURLImagePrefix ++ fullCodeAt pfx startDigits i ++ baseURLImageSuffix) false
      = (utf8 "200", []) := by
    unfold checkURL
    rw [himage]
    simp [h200]
  have hne : utf8 "404" ≠ utf8 "200" := by decide
  have hd : ∀ s pageURL imageURL searchURL : GoString,
      detect (utf8 "404") (utf8 "200") s pageURL imageURL searchURL
        = discontinuedBlock pageURL imageURL := by
    intro s pageURL imageURL searchURL
    simp [detect, hne]
  constructor
  · simp only [iteration, hp, hi, hd]
  · rw [hd]
    exact Ne.symm (hiddenBlock_ne_discontinuedBlock _ _ _)

/-- C16 on a catalogue with a soft-404 page, an existing image and a search page
that lists the code: the block written is the discontinued/redirected one. -/
theorem iteration_soft404_witness :
    (iteration netSoft404 (utf8 "ab") 100 0 initialRun).stdout
      = [utf8 "ab00100:404:200:200:",
         utf8 "--検知 (廃盤/リダイレクト)",
         utf8 "https://d-rw.com/Form/Product/ProductDetail.aspx?pid=ab00100",
         utf8 "https://d-rw.com/Contents/ProductImages/0/ab00100_LL.jpg",
         utf8 "--"] :=
  ((iteration_soft404 netSoft404 (utf8 "ab") 100 0 initialRun pageBodySoft404 none rfl
      ((contains_iff_occurs _ _).mp (by decide)) rfl).1).trans (by decide)

/-! ## The fields of the report line -/

theorem splitByte_of_not_mem (sep : Nat) : ∀ (s : GoString), sep ∉ s → splitByte sep s = [s] := by
  intro s
  induction s with
  | nil => intro _; rfl
  | cons c t ih =>
    intro h
    have hc : ¬ c = sep := fun e => h (by simp [e])
    have ht : sep ∉ t := fun hm => h (List.mem_cons_of_mem _ hm)
    simp [splitByte, hc, ih ht]

theorem splitByte_append (sep : Nat) (b : GoString) :
    ∀ (a : GoString), sep ∉ a → splitByte sep (a ++ sep :: b) = a :: splitByte sep b := by
  intro a
  induction a with
  | nil => intro _; simp [splitByte]
  | cons c t ih =>
    intro h
    have hc : ¬ c = sep := fun e => h (by simp [e])
    have ht : sep ∉ t := fun hm => h (List.mem_cons_of_mem _ hm)
    simp [splitByte, hc, ih ht]

/-- Five strings without a colon, joined by colons, split into themselves. -/
theorem splitByte_reportLine (a b c d e : GoString) (ha : 58 ∉ a) (hb : 58 ∉ b) (hc : 58 ∉ c)
    (hd : 58 ∉ d) (he : 58 ∉ e) : splitByte 58 (reportLine a b c d e) = [a, b, c, d, e] := by
  have hcolon : utf8 ":" = [58] := by decide
  have hline : reportLine a b c d e = a ++ 58 :: (b ++ 58 :: (c ++ 58 :: (d ++ 58 :: e))) := by
    simp [reportLine, hcolon, List.append_assoc]
  rw [hline, splitByte_append 58 _ a ha, splitByte_append 58 _ b hb, splitByte_append 58 _ c hc,
    splitByte_append 58 _ d hd, splitByte_of_not_mem 58 e he]

theorem formatNat_digits (n : Nat) : ∀ c ∈ formatNat n, 48 ≤ c ∧ c ≤ 57 := by
  induction n using Nat.strong_induction_on with
  | _ n ih =>
    intro c hc
    rw [formatNat_eq] at hc
    by_cases h : n < 10
    · simp only [h, if_true, List.mem_singleton] at hc
      omega
    · have hd : n / 10 < n := Nat.div_lt_self (by omega) (by omega)
      simp only [h, if_false, List.mem_append, List.mem_singleton] at hc
      rcases hc with hc | hc
      · exact ih (n / 10) hd c hc
      · omega

theorem Itoa_not_colon (n : Int) : 58 ∉ Itoa n := by
  intro h
  unfold Itoa at h
  by_cases hn : n < 0
  · simp only [hn, if_true, List.mem_cons] at h
    rcases h with h | h
    · omega
    · have := formatNat_digits _ 58 h
      omega
  · simp only [hn, if_false] at h
    have := formatNat_digits _ 58 h
    omega

theorem zeroPad_not_colon (w : Nat) (ds : GoString) (h : 58 ∉ ds) : 58 ∉ zeroPad w ds := by
  intro hm
  simp only [zeroPad, List.mem_append, List.mem_replicate] at hm
  rcases hm with hm | hm
  · omega
  · exact h hm

theorem sprintfZeroPad_not_colon (w : Nat) (n : Int) : 58 ∉ sprintfZeroPad w n := by
  have hf : 58 ∉ formatNat n.natAbs := fun h => by
    have := formatNat_digits _ 58 h
    omega
  intro h
  unfold sprintfZeroPad at h
  by_cases hn : n < 0
  · simp only [hn, if_true, List.mem_cons] at h
    rcases h with h | h
    · omega
    · exact zeroPad_not_colon _ _ hf h
  · simp only [hn, if_false] at h
    exact zeroPad_not_colon _ _ hf h

theorem checkURL_status_not_colon (net : Network) (issued : Nat) (url : GoString)
    (isPageCheck : Bool) : 58 ∉ (checkURL net issued url isPageCheck).1 := by
  have h1 : 58 ∉ utf8 "-1" := by decide
  have h2 : 58 ∉ utf8 "-2" := by decide
  have h4 : 58 ∉ utf8 "404" := by decide
  unfold checkURL
  cases hnet : net checkURLClient url issued with
  | netError => exact h1
  | response statusCode body =>
    by_cases hc : statusCode = 200 ∧ isPageCheck = true
    · simp only [hc, and_self, if_true]
      cases body with
      | none => exact h2
      | some bodyString =>
        by_cases he : Contains bodyString errorMessageSnippet = true
        · show 58 ∉ (if Contains bodyString errorMessageSnippet = true then (utf8 "404", [])
              else (Itoa 200, extractModelName bodyString)).1
          rw [if_pos he]
          exact h4
        · show 58 ∉ (if Contains bodyString errorMessageSnippet = true then (utf8 "404", [])
              else (Itoa 200, extractModelName bodyString)).1
          rw [if_neg he]
          exact Itoa_not_colon 200
    · simp only [hc, if_false]
      exact Itoa_not_colon _

theorem checkSearch_status_not_colon (net : Network) (issued : Nat) (url productID : GoString) :
    58 ∉ checkSearch net issued url productID := by
  have h1 : 58 ∉ utf8 "-1" := by decide
  have h2 : 58 ∉ utf8 "-2" := by decide
  have h3 : 58 ∉ utf8 "200" := by decide
  have h4 : 58 ∉ utf8 "404" := by decide
  unfold checkSearch
  cases hnet : net checkSearchClient url issued with
  | netError => exact h1
  | response statusCode body =>
    by_cases hc : statusCode = 200
    · subst hc
      cases body with
      | none => simpa using h2
      | some bodyString =>
        by_cases he : Contains bodyString searchHitSnippet = true ∧
            Contains bodyString (utf8 "/" ++ productID) = true
        · simpa [he] using h3
        · simpa [he] using h4
    · simp only [ne_eq, hc, not_false_eq_true, if_true]
      exact Itoa_not_colon _

/-- C12, as stated, fails: a model name with a colon adds a field. With the page
of `pageBodyColon` the report line of `ab00100` splits into six fields. -/
theorem report_fields_fail :
    (goMain netColon [utf8 "prog", utf8 "ab00100", utf8 "1"]).stdout
      = [utf8 "ab00100:200:-1:-1:A:B"] ∧
    splitByte 58 (utf8 "ab00100:200:-1:-1:A:B")
      = [utf8 "ab00100", utf8 "200", utf8 "-1", utf8 "-1", utf8 "A", utf8 "B"] := by
  decide

theorem formatNat_not_line_feed (n : Nat) : 10 ∉ formatNat n := fun h => by
  have := formatNat_digits n 10 h
  omega

theorem Itoa_not_line_feed (n : Int) : 10 ∉ Itoa n := by
  intro h
  unfold Itoa at h
  by_cases hn : n < 0
  · simp only [hn, if_true, List.mem_cons] at h
    rcases h with h | h
    · omega
    · exact formatNat_not_line_feed _ h
  · simp only [hn, if_false] at h
    exact formatNat_not_line_feed _ h

theorem sprintfZeroPad_not_line_feed (w : Nat) (n : Int) : 10 ∉ sprintfZeroPad w n := by
  have hz : ∀ k : Nat, 10 ∉ zeroPad k (formatNat n.natAbs) := by
    intro k hm
    simp only [zeroPad, List.mem_append, List.mem_replicate] at hm
    rcases hm with hm | hm
    · omega
    · exact formatNat_not_line_feed _ hm
  intro h
  unfold sprintfZeroPad at h
  by_cases hn : n < 0
  · simp only [hn, if_true, List.mem_cons] at h
    rcases h with h | h
    · omega
    · exact hz _ h
  · simp only [hn, if_false] at h
    exact hz _ h

theorem checkURL_status_not_line_feed (net : Network) (issued : Nat) (url : GoString)
    (isPageCheck : Bool) : 10 ∉ (checkURL net issued url isPageCheck).1 := by
  have h1 : 10 ∉ utf8 "-1" := by decide
  have h2 : 10 ∉ utf8 "-2" := by decide
  have h4 : 10 ∉ utf8 "404" := by decide
  unfold checkURL
  cases hnet : net checkURLClient url issued with
  | netError => exact h1
  | response statusCode body =>
    by_cases hc : statusCode = 200 ∧ isPageCheck = true
    · simp only [hc, and_self, if_true]
      cases body with
      | none => exact h2
      | some bodyString =>
        by_cases he : Contains bodyString errorMessageSnippet = true
        · show 10 ∉ (if Contains bodyString errorMessageSnippet = true then (utf8 "404", [])
              else (Itoa 200, extractModelName bodyString)).1
          rw [if_pos he]
          exact h4
        · show 10 ∉ (if Contains bodyString errorMessageSnippet = true then (utf8 "404", [])
              else (Itoa 200, extractModelName bodyString)).1
          rw [if_neg he]
          exact Itoa_not_line_feed 200
    · simp only [hc, if_false]
      exact Itoa_not_line_feed _

theorem checkSearch_status_not_line_feed (net : Network) (issued : Nat)
    (url productID : GoString) : 10 ∉ checkSearch net issued url productID := by
  have h1 : 10 ∉ utf8 "-1" := by decide
  have h2 : 10 ∉ utf8 "-2" := by decide
  have h3 : 10 ∉ utf8 "200" := by decide
  have h4 : 10 ∉ utf8 "404" := by decide
  unfold checkSearch
  cases hnet : net checkSearchClient url issued with
  | netError => exact h1
  | response statusCode body =>
    by_cases hc : statusCode = 200
    · subst hc
      cases body with
      | none => simpa using h2
      | some bodyString =>
        by_cases he : Contains bodyString searchHitSnippet = true ∧
            Contains bodyString (utf8 "/" ++ productID) = true
        · simpa [he] using h3
        · simpa [he] using h4
    · simp only [ne_eq, hc, not_false_eq_true, if_true]
      exact Itoa_not_line_feed _

/-- Five strings without a line feed, joined by colons, hold no line feed. -/
theorem reportLine_not_line_feed (a b c d e : GoString) (ha : 10 ∉ a) (hb : 10 ∉ b)
    (hc : 10 ∉ c) (hd : 10 ∉ d) (he : 10 ∉ e) : 10 ∉ reportLine a b c d e := by
  have hcolon : utf8 ":" = [58] := by decide
  intro h
  simp only [reportLine, hcolon, List.mem_append, List.mem_singleton] at h
  rcases h with ((((((((h | h) | h) | h) | h) | h) | h) | h) | h)
  · exact ha h
  · omega
  · exact hb h
  · omega
  · exact hc h
  · omega
  · exact hd h
  · omega
  · exact he h

/-- The first line of what is written for a list of entries is the first entry,
when that entry holds no line feed. -/
theorem writtenBytes_first_line (line : GoString) (others : List GoString) (h : 10 ∉ line) :
    (splitByte 10 (writtenBytes (line :: others))).head? = some line := by
  have hw : writtenBytes (line :: others) = line ++ 10 :: writtenBytes others := by
    simp [writtenBytes]
  rw [hw, splitByte_append 10 _ line h]
  rfl

/-- A model name with a line feed and no colon breaks the report line: the pass
writes `ab00100:200:-1:-1:A`, a line feed and `B`, so the line printed for the
code ends in the field `A`, which is not the model name. -/
theorem report_line_broken_by_line_feed :
    (checkURL netLineFeed 0 (baseURLPagePrefix ++ utf8 "ab00100") true).2
      = utf8 "A" ++ [10] ++ utf8 "B" ∧
    58 ∉ (checkURL netLineFeed 0 (baseURLPagePrefix ++ utf8 "ab00100") true).2 ∧
    splitByte 10 (writtenBytes (goMain netLineFeed [utf8 "prog", utf8 "ab00100", utf8 "1"]).stdout)
      = [utf8 "ab00100:200:-1:-1:A", utf8 "B", []] ∧
    splitByte 58 (utf8 "ab00100:200:-1:-1:A")
      = [utf8 "ab00100", utf8 "200", utf8 "-1", utf8 "-1", utf8 "A"] := by
  decide

/-- C12, amended: when neither the prefix of the code nor the model name
contains a colon or a line feed, the first entry a pass writes is the code, the
page status, the image status, the search status and the model name joined by
colons; it is the first line of the bytes the pass writes to standard output;
and split at the colon it consists of exactly these five fields, in this
order. -/
theorem iteration_report_fields (net : Network) (pfx : GoString) (startDigits i : Int)
    (st : Run) (hpfx : 58 ∉ pfx) (hpfxLine : 10 ∉ pfx)
    (hmodel : 58 ∉ (checkURL net st.requests.length
      (baseURLPagePrefix ++ fullCodeAt pfx startDigits i) true).2)
    (hmodelLine : 10 ∉ (checkURL net st.requests.length
      (baseURLPagePrefix ++ fullCodeAt pfx startDigits i) true).2) :
    (iteration net pfx startDigits i st).stdout[st.stdout.length]?
      = some (reportLine (fullCodeAt pfx startDigits i)
          (checkURL net st.requests.length
            (baseURLPagePrefix ++ fullCodeAt pfx startDigits i) true).1
          (checkURL net (st.requests.length + 1)
            (baseURLImagePrefix ++ fullCodeAt pfx startDigits i ++ baseURLImageSuffix) false).1
          (checkSearch net (st.requests.length + 2)
            (baseURLSearchPrefix ++ fullCodeAt pfx startDigits i ++ baseURLSearchSuffix)
            (fullCodeAt pfx startDigits i))
          (checkURL net st.requests.length
            (baseURLPagePrefix ++ fullCodeAt pfx startDigits i) true).2) ∧
    (splitByte 10 (writtenBytes
        ((iteration net pfx startDigits i st).stdout.drop st.stdout.length))).head?
      = some (reportLine (fullCodeAt pfx startDigits i)
          (checkURL net st.requests.length
            (baseURLPagePrefix ++ fullCodeAt pfx startDigits i) true).1
          (checkURL net (st.requests.length + 1)
            (baseURLImagePrefix ++ fullCodeAt pfx startDigits i ++ baseURLImageSuffix) false).1
          (checkSearch net (st.requests.length + 2)
            (baseURLSearchPrefix ++ fullCodeAt pfx startDigits i ++ baseURLSearchSuffix)
            (fullCodeAt pfx startDigits i))
          (checkURL net st.requests.length
            (baseURLPagePrefix ++ fullCodeAt pfx startDigits i) true).2) ∧
    splitByte 58 (reportLine (fullCodeAt pfx startDigits i)
          (checkURL net st.requests.length
            (baseURLPagePrefix ++ fullCodeAt pfx startDigits i) true).1
          (checkURL net (st.requests.length + 1)
            (baseURLImagePrefix ++ fullCodeAt pfx startDigits i ++ baseURLImageSuffix) false).1
          (checkSearch net (st.requests.length + 2)
            (baseURLSearchPrefix ++ fullCodeAt pfx startDigits i ++ baseURLSearchSuffix)
            (fullCodeAt pfx startDigits i))
          (checkURL net st.requests.length
            (baseURLPagePrefix ++ fullCodeAt pfx startDigits i) true).2)
      = [fullCodeAt pfx startDigits i,
         (checkURL net st.requests.length
            (baseURLPagePrefix ++ fullCodeAt pfx startDigits i) true).1,
         (checkURL net (st.requests.length + 1)
            (baseURLImagePrefix ++ fullCodeAt pfx startDigits i ++ baseURLImageSuffix) false).1,
         checkSearch net (st.requests.length + 2)
            (baseURLSearchPrefix ++ fullCodeAt pfx startDigits i ++ baseURLSearchSuffix)
            (fullCodeAt pfx startDigits i),
         (checkURL net st.requests.length
            (baseURLPagePrefix ++ fullCodeAt pfx startDigits i) true).2] := by
  have hcodeLine : 10 ∉ fullCodeAt pfx startDigits i := by
    intro h
    simp only [fullCodeAt, List.mem_append] at h
    rcases h with h | h
    · exact hpfxLine h
    · exact sprintfZeroPad_not_line_feed _ _ h
  refine ⟨?_, ?_, ?_⟩
  · show (st.stdout ++ _ :: _)[st.stdout.length]? = some _
    rw [List.getElem?_append_right (le_refl _)]
    simp
  · have hdrop : (iteration net pfx startDigits i st).stdout.drop st.stdout.length
        = reportLine (fullCodeAt pfx startDigits i)
            (checkURL net st.requests.length
              (baseURLPagePrefix ++ fullCodeAt pfx startDigits i) true).1
            (checkURL net (st.requests.length + 1)
              (baseURLImagePrefix ++ fullCodeAt pfx startDigits i ++ baseURLImageSuffix) false).1
            (checkSearch net (st.requests.length + 2)
              (baseURLSearchPrefix ++ fullCodeAt pfx startDigits i ++ baseURLSearchSuffix)
              (fullCodeAt pfx startDigits i))
            (checkURL net st.requests.length
              (baseURLPagePrefix ++ fullCodeAt pfx startDigits i) true).2 ::
          detect
            (checkURL net st.requests.length
              (baseURLPagePrefix ++ fullCodeAt pfx startDigits i) true).1
            (checkURL net (st.requests.length + 1)
              (baseURLImagePrefix ++ fullCodeAt pfx startDigits i ++ baseURLImageSuffix) false).1
            (checkSearch net (st.requests.length + 2)
              (baseURLSearchPrefix ++ fullCodeAt pfx startDigits i ++ baseURLSearchSuffix)
              (fullCodeAt pfx startDigits i))
            (baseURLPagePrefix ++ fullCodeAt pfx startDigits i)
            (baseURLImagePrefix ++ fullCodeAt pfx startDigits i ++ baseURLImageSuffix)
            (baseURLSearchPrefix ++ fullCodeAt pfx startDigits i ++ baseURLSearchSuffix) :=
      List.drop_left _ _
    rw [hdrop]
    exact writtenBytes_first_line _ _
      (reportLine_not_line_feed _ _ _ _ _ hcodeLine (checkURL_status_not_line_feed _ _ _ _)
        (checkURL_status_not_line_feed _ _ _ _) (checkSearch_status_not_line_feed _ _ _ _)
        hmodelLine)
  · apply splitByte_reportLine
    · intro h
      simp only [fullCodeAt, List.mem_append] at h
      rcases h with h | h
      · exact hpfx h
      · exact sprintfZeroPad_not_colon _ _ h
    · exact checkURL_status_not_colon _ _ _ _
    · exact checkURL_status_not_colon _ _ _ _
    · exact checkSearch_status_not_colon _ _ _ _
    · exact hmodel

/-- C12, amended, at start code `ab00100` with a page that carries the model
name `ModelX`: the first line the pass writes is `ab00100:200:-1:-1:ModelX`,
with the five fields `ab00100`, `200`, `-1`, `-1` and `ModelX`; and a run of
range 2 on a network that is down writes two lines, of five fields each. -/
theorem iteration_report_fields_witness :
    (splitByte 10 (writtenBytes
        ((iteration netModel (utf8 "ab") 100 0 initialRun).stdout.drop 0))).head?
      = some (utf8 "ab00100:200:-1:-1:ModelX") ∧
    splitByte 58 (utf8 "ab00100:200:-1:-1:ModelX")
      = [utf8 "ab00100", utf8 "200", utf8 "-1", utf8 "-1", utf8 "ModelX"] ∧
    writtenBytes (goMain netDown [utf8 "prog", utf8 "ab00100", utf8 "2"]).stdout
      = utf8 "ab00100:-1:-1:-1:\nab00101:-1:-1:-1:\n" ∧
    (splitByte 58 (utf8 "ab00100:-1:-1:-1:")).length = 5 ∧
    (splitByte 58 (utf8 "ab00101:-1:-1:-1:")).length = 5 :=
  ⟨((iteration_report_fields netModel (utf8 "ab") 100 0 initialRun (by decide) (by decide)
      (by decide) (by decide)).2.1).trans (by decide),
   (congrArg (splitByte 58) (by decide)).trans
      (iteration_report_fields netModel (utf8 "ab") 100 0 initialRun (by decide) (by decide)
        (by decide) (by decide)).2.2
      |>.trans (by decide),
   by decide, by decide, by decide⟩

/-- C14 on a server that answers with a redirect: the clients of `checkURL` and
`checkSearch` have the same timeout and both disable keep-alives, but only the
client of `checkURL` stops redirects. The page and the image probe return the
`302` itself; the search probe follows the redirect and reports on the page it
lands on. -/
theorem search_client_follows_redirects :
    checkURLClient
      = { timeoutSeconds := 5, disableKeepAlives := true, followRedirects := false } ∧
    checkSearchClient
      = { timeoutSeconds := 5, disableKeepAlives := true, followRedirects := true } ∧
    checkURL netRedirect 0 (utf8 "https://d-rw.com/Form/Product/ProductDetail.aspx?pid=ab00100")
      true = (utf8 "302", []) ∧
    checkURL netRedirect 1 (utf8 "https://d-rw.com/Contents/ProductImages/0/ab00100_LL.jpg")
      false = (utf8 "302", []) ∧
    checkSearch netRedirect 2 (baseURLSearchPrefix ++ utf8 "ab00100" ++ baseURLSearchSuffix)
      (utf8 "ab00100") = utf8 "404" := by
  decide

end DrwHiddenChecker
